import Mathlib

/-!
The tree-walking evaluator of gocalc, `src/gocalc.go`.

A shallow embedding of `Calculator.call`, `Calculator.calculate` and
`Calculator.Calculate`.

* `float64` is a type parameter `F` carrying `0`, `+`, `-`, `*` and `/`; nothing
  is assumed about these operations, so every statement holds for IEEE-754
  doubles in particular.
* A Go call returning `(T, error)` is an `Outcome T`: either it returns the pair
  (`Outcome.ret val err`, with `err = none` for a nil error) or it does not
  return because of a run-time panic (`Outcome.panic`).
* A `*node` is an `Option (node F)`, `none` being the nil pointer.
* The function table `map[string]any` is an association list read with
  `List.lookup`.
* A second embedding of the same three methods runs over a program state, for
  the statements about effects: there a table entry may read and write the
  state, and the map is read in the state at hand.
-/

namespace Gocalc

/-- Modelled from the spec: the declaration of the node kind is not under src/.
The six constants are the ones `calculate` switches on; `other s` stands for any
further value of the type, `s` being what the `%s` verb prints for it. -/
inductive nodeKind where
  | addNode
  | subNode
  | mulNode
  | divNode
  | numNode
  | funcNode
  | other (name : String)
  deriving DecidableEq, Repr

/-- A Go `error` value, identified with its message. -/
structure error where
  msg : String
  deriving DecidableEq, Repr

/-- The run-time panics the evaluator can raise. -/
inductive panicValue where
  | nilPointerDereference
  | indexOutOfRange (index length : Nat)
  deriving DecidableEq, Repr

/-- What a Go function of result type `(α, error)` does: return a pair, or panic. -/
inductive Outcome (α : Type) where
  | ret (val : α) (err : Option error)
  | panic (p : panicValue)
  deriving DecidableEq, Repr

/-- Modelled from the spec: the declaration of `node` is not under src/. The
fields are the ones `calculate` reads (`kind`, `val`, `left`, `right`,
`funcName`, `args`); `left` and `right` may be absent, and `args` is an ordered
sequence of nodes (spec, section 3). -/
inductive node (F : Type) where
  | mk (kind : nodeKind) (val : F) (left right : Option (node F))
      (funcName : String) (args : List (node F))

/-- A value of Go type `any` as the type switch of `call` sees it: a (non-nil)
function of one of the four shapes it recognises, or a value of any other
dynamic type. -/
inductive any (F : Type) where
  | func0 (f : Unit → F)
  | func1 (f : F → F)
  | func2 (f : F → F → F)
  | func3 (f : F → F → F → F)
  | other

/-- The number of `float64` parameters of a table entry, when it is a function of
one of the four recognised shapes. -/
def any.arity {F : Type} : any F → Option Nat
  | .func0 _ => some 0
  | .func1 _ => some 1
  | .func2 _ => some 2
  | .func3 _ => some 3
  | .other => none

/-- The Go struct `Calculator`. -/
structure Calculator (F : Type) where
  functions : List (String × any F)

/-- The functions of Go package `math` that `mathFunctions` refers to; their
implementations are external to the repository and are taken as parameters. -/
structure mathPkg (F : Type) where
  Abs : F → F
  Acos : F → F
  Acosh : F → F
  Asin : F → F
  Asinh : F → F
  Atan : F → F
  Atan2 : F → F → F
  Atanh : F → F
  Cbrt : F → F
  Ceil : F → F
  Copysign : F → F → F
  Cos : F → F
  Cosh : F → F
  Dim : F → F → F
  Erf : F → F
  Erfc : F → F
  Erfcinv : F → F
  Erfinv : F → F
  Exp : F → F
  Exp2 : F → F
  Expm1 : F → F
  FMA : F → F → F → F
  Floor : F → F
  Gamma : F → F
  Hypot : F → F → F
  J0 : F → F
  J1 : F → F
  Log : F → F
  Log10 : F → F
  Log1p : F → F
  Log2 : F → F
  Logb : F → F
  Max : F → F → F
  Min : F → F → F
  Mod : F → F → F
  NaN : Unit → F
  Nextafter : F → F → F
  Pow : F → F → F
  Remainder : F → F → F
  Round : F → F
  RoundToEven : F → F
  Sin : F → F
  Sinh : F → F
  Sqrt : F → F
  Tan : F → F
  Tanh : F → F
  Trunc : F → F
  Y0 : F → F
  Y1 : F → F

/-- The Go function `mathFunctions`: the table of the functions of package
`math`, keyed by name. -/
def mathFunctions {F : Type} (math : mathPkg F) : List (String × any F) :=
  [ ("abs", .func1 math.Abs),
    ("acos", .func1 math.Acos),
    ("acosh", .func1 math.Acosh),
    ("asin", .func1 math.Asin),
    ("asinh", .func1 math.Asinh),
    ("atan", .func1 math.Atan),
    ("atan2", .func2 math.Atan2),
    ("atanh", .func1 math.Atanh),
    ("cbrt", .func1 math.Cbrt),
    ("ceil", .func1 math.Ceil),
    ("copysign", .func2 math.Copysign),
    ("cos", .func1 math.Cos),
    ("cosh", .func1 math.Cosh),
    ("dim", .func2 math.Dim),
    ("erf", .func1 math.Erf),
    ("erfc", .func1 math.Erfc),
    ("erfcinv", .func1 math.Erfcinv),
    ("erfinv", .func1 math.Erfinv),
    ("exp", .func1 math.Exp),
    ("exp2", .func1 math.Exp2),
    ("expm1", .func1 math.Expm1),
    ("fma", .func3 math.FMA),
    ("floor", .func1 math.Floor),
    ("gamma", .func1 math.Gamma),
    ("hypot", .func2 math.Hypot),
    ("j0", .func1 math.J0),
    ("j1", .func1 math.J1),
    ("log", .func1 math.Log),
    ("log10", .func1 math.Log10),
    ("log1p", .func1 math.Log1p),
    ("log2", .func1 math.Log2),
    ("logb", .func1 math.Logb),
    ("max", .func2 math.Max),
    ("min", .func2 math.Min),
    ("mod", .func2 math.Mod),
    ("nan", .func0 math.NaN),
    ("nextafter", .func2 math.Nextafter),
    ("pow", .func2 math.Pow),
    ("remainder", .func2 math.Remainder),
    ("round", .func1 math.Round),
    ("roundtoeven", .func1 math.RoundToEven),
    ("sin", .func1 math.Sin),
    ("sinh", .func1 math.Sinh),
    ("sqrt", .func1 math.Sqrt),
    ("tan", .func1 math.Tan),
    ("tanh", .func1 math.Tanh),
    ("trunc", .func1 math.Trunc),
    ("y0", .func1 math.Y0),
    ("y1", .func1 math.Y1) ]

/-- The Go function `New`: a calculator over the table `mathFunctions`. -/
def New {F : Type} (math : mathPkg F) : Calculator F :=
  { functions := mathFunctions math }

section evaluator

variable {F : Type} [Zero F] [Add F] [Sub F] [Mul F] [Div F]

/-- The Go method `Calculator.call`: look the name up, then dispatch on the
shape of the entry. Reading `args[i]` past the end of the slice panics. -/
def call (c : Calculator F) (funcName : String) (args : List F) : Outcome F :=
  match c.functions.lookup funcName with
  | none => .ret 0 (some ⟨"unknown function " ++ funcName⟩)
  | some (.func0 f) => .ret (f ()) none
  | some (.func1 f) =>
    match args[0]? with
    | none => .panic (.indexOutOfRange 0 args.length)
    | some a0 => .ret (f a0) none
  | some (.func2 f) =>
    match args[0]? with
    | none => .panic (.indexOutOfRange 0 args.length)
    | some a0 =>
      match args[1]? with
      | none => .panic (.indexOutOfRange 1 args.length)
      | some a1 => .ret (f a0 a1) none
  | some (.func3 f) =>
    match args[0]? with
    | none => .panic (.indexOutOfRange 0 args.length)
    | some a0 =>
      match args[1]? with
      | none => .panic (.indexOutOfRange 1 args.length)
      | some a1 =>
        match args[2]? with
        | none => .panic (.indexOutOfRange 2 args.length)
        | some a2 => .ret (f a0 a1 a2) none
  | some .other => .ret 0 (some ⟨"invalid function " ++ funcName⟩)

mutual
/-- The Go method `Calculator.calculate` on a `*node`; reading `n.kind` through
a nil pointer panics. -/
def calculate (c : Calculator F) : Option (node F) → Outcome F
  | none => .panic .nilPointerDereference
  | some n => calculateNode c n
/-- The body of `Calculator.calculate` on a node that is present: the switch on
`n.kind`. -/
def calculateNode (c : Calculator F) : node F → Outcome F
  | .mk kind val left right funcName args =>
    match kind with
    | .addNode =>
      match calculate c left with
      | .panic p => .panic p
      | .ret _ (some err) => .ret 0 (some err)
      | .ret l none =>
        match calculate c right with
        | .panic p => .panic p
        | .ret _ (some err) => .ret 0 (some err)
        | .ret r none => .ret (l + r) none
    | .subNode =>
      match calculate c left with
      | .panic p => .panic p
      | .ret _ (some err) => .ret 0 (some err)
      | .ret l none =>
        match calculate c right with
        | .panic p => .panic p
        | .ret _ (some err) => .ret 0 (some err)
        | .ret r none => .ret (l - r) none
    | .mulNode =>
      match calculate c left with
      | .panic p => .panic p
      | .ret _ (some err) => .ret 0 (some err)
      | .ret l none =>
        match calculate c right with
        | .panic p => .panic p
        | .ret _ (some err) => .ret 0 (some err)
        | .ret r none => .ret (l * r) none
    | .divNode =>
      match calculate c left with
      | .panic p => .panic p
      | .ret _ (some err) => .ret 0 (some err)
      | .ret l none =>
        match calculate c right with
        | .panic p => .panic p
        | .ret _ (some err) => .ret 0 (some err)
        | .ret r none => .ret (l / r) none
    | .numNode => .ret val none
    | .funcNode => calculateArgs c funcName args []
    | .other name => .ret 0 (some ⟨"unknown node type: " ++ name⟩)
/-- The `funcNode` case from the loop on: `rest` are the arguments still to be
evaluated and `args` the values appended so far; after the last one the
function is called. -/
def calculateArgs (c : Calculator F) (funcName : String) :
    List (node F) → List F → Outcome F
  | [], args => call c funcName args
  | arg :: rest, args =>
    match calculateNode c arg with
    | .panic p => .panic p
    | .ret _ (some err) => .ret 0 (some err)
    | .ret val none => calculateArgs c funcName rest (args ++ [val])
end

/-- The Go method `Calculator.Calculate`. The functions `tokenize`, `newParser`
and `parse` are not under src/ and are taken as parameters, over any type `T` of
token sequences and any type `P` of parsers. -/
def Calculate {T P : Type} (tokenize : String → Outcome T)
    (newParser : T → List (String × any F) → P)
    (parse : P → Outcome (Option (node F)))
    (c : Calculator F) (expr : String) : Outcome F :=
  match tokenize expr with
  | .panic p => .panic p
  | .ret _ (some err) => .ret 0 (some err)
  | .ret tokens none =>
    match parse (newParser tokens c.functions) with
    | .panic p => .panic p
    | .ret _ (some err) => .ret 0 (some err)
    | .ret n none => calculate c n

end evaluator

/-! ## Reference notions used by the statements -/

section reference

variable {F : Type} [Zero F] [Add F] [Sub F] [Mul F] [Div F]

/-- The four binary operator kinds. -/
def nodeKind.isBinary : nodeKind → Bool
  | .addNode => true
  | .subNode => true
  | .mulNode => true
  | .divNode => true
  | _ => false

/-- Trees built only from number nodes and from add, sub, mul and div nodes that
have both children present. -/
inductive arithTree : node F → Prop where
  | num (val : F) (left right : Option (node F)) (funcName : String)
      (args : List (node F)) :
      arithTree (.mk .numNode val left right funcName args)
  | binary (kind : nodeKind) (val : F) (l r : node F) (funcName : String)
      (args : List (node F)) :
      kind.isBinary = true → arithTree l → arithTree r →
      arithTree (.mk kind val (some l) (some r) funcName args)

mutual
/-- The reference denotation: a number node denotes its `val`, a binary node
denotes the denotation of its left child combined with that of its right child
by the operator of its kind. It is undefined (`none`) on any other tree. -/
def denote : node F → Option F
  | .mk kind val left right _ _ =>
    match kind with
    | .numNode => some val
    | .addNode =>
      match denoteChild left, denoteChild right with
      | some a, some b => some (a + b)
      | _, _ => none
    | .subNode =>
      match denoteChild left, denoteChild right with
      | some a, some b => some (a - b)
      | _, _ => none
    | .mulNode =>
      match denoteChild left, denoteChild right with
      | some a, some b => some (a * b)
      | _, _ => none
    | .divNode =>
      match denoteChild left, denoteChild right with
      | some a, some b => some (a / b)
      | _, _ => none
    | _ => none
/-- The denotation of a child, undefined when the child is absent. -/
def denoteChild : Option (node F) → Option F
  | none => none
  | some n => denote n
end

/-- The invariant the parser establishes, relative to the table of `c`: every
kind is one of the six known ones, a binary node has both children present, and
a function node names an entry of the table whose number of parameters is the
number of its arguments. -/
inductive wellFormed (c : Calculator F) : node F → Prop where
  | num (val : F) (left right : Option (node F)) (funcName : String)
      (args : List (node F)) :
      wellFormed c (.mk .numNode val left right funcName args)
  | binary (kind : nodeKind) (val : F) (l r : node F) (funcName : String)
      (args : List (node F)) :
      kind.isBinary = true → wellFormed c l → wellFormed c r →
      wellFormed c (.mk kind val (some l) (some r) funcName args)
  | func (val : F) (left right : Option (node F)) (funcName : String)
      (args : List (node F)) (f : any F) :
      c.functions.lookup funcName = some f → f.arity = some args.length →
      (∀ a ∈ args, wellFormed c a) →
      wellFormed c (.mk .funcNode val left right funcName args)

/-- A number node, as a leaf. -/
def numLeaf (v : F) : node F := .mk .numNode v none none "" []

/-- A node of kind `kind` over two present children. -/
def binNode (kind : nodeKind) (l r : node F) : node F :=
  .mk kind 0 (some l) (some r) "" []

/-- A function node for `name` over the arguments `args`. -/
def funcCall (name : String) (args : List (node F)) : node F :=
  .mk .funcNode 0 none none name args

end reference

/-! ## A concrete carrier for closed examples

The free term model of `float64`: every operation and every library function
builds the term that records its own application, so a closed evaluation shows
which function was applied to which arguments in which order. -/

/-- Terms over integer literals, the four operators and named library
functions. -/
inductive sym where
  | lit (n : Int)
  | add (a b : sym)
  | sub (a b : sym)
  | mul (a b : sym)
  | div (a b : sym)
  | app0 (name : String)
  | app1 (name : String) (a : sym)
  | app2 (name : String) (a b : sym)
  | app3 (name : String) (a b c : sym)
  deriving DecidableEq, Repr

instance : Zero sym := ⟨.lit 0⟩
instance : Add sym := ⟨.add⟩
instance : Sub sym := ⟨.sub⟩
instance : Mul sym := ⟨.mul⟩
instance : Div sym := ⟨.div⟩

/-- Package `math` over the term model. -/
def symMath : mathPkg sym where
  Abs := .app1 "Abs"
  Acos := .app1 "Acos"
  Acosh := .app1 "Acosh"
  Asin := .app1 "Asin"
  Asinh := .app1 "Asinh"
  Atan := .app1 "Atan"
  Atan2 := .app2 "Atan2"
  Atanh := .app1 "Atanh"
  Cbrt := .app1 "Cbrt"
  Ceil := .app1 "Ceil"
  Copysign := .app2 "Copysign"
  Cos := .app1 "Cos"
  Cosh := .app1 "Cosh"
  Dim := .app2 "Dim"
  Erf := .app1 "Erf"
  Erfc := .app1 "Erfc"
  Erfcinv := .app1 "Erfcinv"
  Erfinv := .app1 "Erfinv"
  Exp := .app1 "Exp"
  Exp2 := .app1 "Exp2"
  Expm1 := .app1 "Expm1"
  FMA := .app3 "FMA"
  Floor := .app1 "Floor"
  Gamma := .app1 "Gamma"
  Hypot := .app2 "Hypot"
  J0 := .app1 "J0"
  J1 := .app1 "J1"
  Log := .app1 "Log"
  Log10 := .app1 "Log10"
  Log1p := .app1 "Log1p"
  Log2 := .app1 "Log2"
  Logb := .app1 "Logb"
  Max := .app2 "Max"
  Min := .app2 "Min"
  Mod := .app2 "Mod"
  NaN := fun _ => .app0 "NaN"
  Nextafter := .app2 "Nextafter"
  Pow := .app2 "Pow"
  Remainder := .app2 "Remainder"
  Round := .app1 "Round"
  RoundToEven := .app1 "RoundToEven"
  Sin := .app1 "Sin"
  Sinh := .app1 "Sinh"
  Sqrt := .app1 "Sqrt"
  Tan := .app1 "Tan"
  Tanh := .app1 "Tanh"
  Trunc := .app1 "Trunc"
  Y0 := .app1 "Y0"
  Y1 := .app1 "Y1"

/-- The calculator `New()` over the term model. -/
def symCalc : Calculator sym := New symMath

/-- The tree of `(1+2)*3`. -/
def treeMulAdd : node sym :=
  binNode .mulNode (binNode .addNode (numLeaf (.lit 1)) (numLeaf (.lit 2)))
    (numLeaf (.lit 3))

/-- The tree of `fma(2,3,4)`. -/
def treeFma : node sym :=
  funcCall "fma" [numLeaf (.lit 2), numLeaf (.lit 3), numLeaf (.lit 4)]

/-- The tree of `sqrt(1,2)`: one argument too many. -/
def treeSqrt2 : node sym := funcCall "sqrt" [numLeaf (.lit 1), numLeaf (.lit 2)]

/-- The tree of `pow(2)`: one argument too few. -/
def treePow1 : node sym := funcCall "pow" [numLeaf (.lit 2)]

/-- The tree of `foo(1)`: a name that is not in the table. -/
def treeFoo : node sym := funcCall "foo" [numLeaf (.lit 1)]

/-- The tree of `1/0`. -/
def treeDivZero : node sym := binNode .divNode (numLeaf (.lit 1)) (numLeaf (.lit 0))

/-- The tree of `0/0`. -/
def treeZeroDivZero : node sym :=
  binNode .divNode (numLeaf (.lit 0)) (numLeaf (.lit 0))

/-- The tree of `foo() + bar()`: both children fail, each with its own error. -/
def treeBothFail : node sym := binNode .addNode (funcCall "foo" []) (funcCall "bar" [])

/-- The tree of `1 - bar()`: only the right child fails. -/
def treeRightFail : node sym := binNode .subNode (numLeaf (.lit 1)) (funcCall "bar" [])

/-- A front end used to instantiate the statements about `Calculate`: its token
sequence is the list of characters, and the empty string is a lexical error. -/
def charTokenize (expr : String) : Outcome (List Char) :=
  if expr = "" then .ret [] (some ⟨"empty expression"⟩) else .ret expr.toList none

/-- The parser state of the front end used with `charTokenize`: the tokens. -/
def charNewParser (tokens : List Char) (_ : List (String × any sym)) : List Char :=
  tokens

/-- The parser of the front end used with `charTokenize`: the single token `7`
is the number 7 and anything else is a parse error. -/
def charParse (tokens : List Char) : Outcome (Option (node sym)) :=
  if tokens = ['7'] then .ret (some (numLeaf (.lit 7))) none
  else .ret none (some ⟨"unexpected token"⟩)

/-- The tree of `nosuch(1, foo(), bar())`: the second argument is the first one
that fails, and the name of the function is not in the table. -/
def treeArgFails : node sym :=
  funcCall "nosuch" [numLeaf (.lit 1), funcCall "foo" [], funcCall "bar" []]


/-! ## The name-to-arity surface of a table -/

/-- The names of a table, each with the number of parameters of its entry. -/
def surface {F : Type} (functions : List (String × any F)) :
    List (String × Option Nat) :=
  functions.map (fun entry => (entry.1, entry.2.arity))

/-! ## The evaluator over a program state

The same three methods once more, for tables whose entries may have effects. A
Go function value of the table may read and write the state of the program, and
the map `c.functions` is itself part of that state. So here a table entry is a
function from the state `S` before the call to its result and the state after
it, `c.functions` is read in the state at hand, and every method takes the
state before the call and gives the state after it beside its outcome. The
functions of the front end are not under src/; they are parameters that may
read and write the state too, the map included. -/

/-- A value of Go type `any` as the type switch of `call` sees it, its functions
acting on the program state `S`. -/
inductive anySt (F S : Type) where
  | func0 (f : S → F × S)
  | func1 (f : F → S → F × S)
  | func2 (f : F → F → S → F × S)
  | func3 (f : F → F → F → S → F × S)
  | other

/-- The Go struct `Calculator`, its map read in a program state. -/
structure CalculatorSt (F S : Type) where
  functions : S → List (String × anySt F S)

/-- An entry that leaves every state as it finds it. -/
def anySt.readOnly {F S : Type} : anySt F S → Prop
  | .func0 f => ∀ s, (f s).2 = s
  | .func1 f => ∀ a s, (f a s).2 = s
  | .func2 f => ∀ a b s, (f a b s).2 = s
  | .func3 f => ∀ a b d s, (f a b d s).2 = s
  | .other => True

/-- An entry of a table of pure functions, made to apply `effect` to the state,
with the arguments it is called on, each time it is called. -/
def any.withEffect {F S : Type} (effect : List F → S → S) : any F → anySt F S
  | .func0 f => .func0 (fun s => (f (), effect [] s))
  | .func1 f => .func1 (fun a s => (f a, effect [a] s))
  | .func2 f => .func2 (fun a b s => (f a b, effect [a, b] s))
  | .func3 f => .func3 (fun a b d s => (f a b d, effect [a, b, d] s))
  | .other => .other

/-- A calculator over pure functions, each entry made to apply `effect` to the
state, with its name and arguments, each time it is called; the map itself is
the same in every state. -/
def Calculator.withEffect {F S : Type} (effect : String → List F → S → S)
    (c : Calculator F) : CalculatorSt F S :=
  { functions := fun _ =>
      c.functions.map (fun entry => (entry.1, entry.2.withEffect (effect entry.1))) }

/-- A calculator over pure functions, as a calculator over any program state:
calling an entry leaves the state as it is. -/
def Calculator.lift {F S : Type} (c : Calculator F) : CalculatorSt F S :=
  c.withEffect (fun _ _ s => s)

/-- A calculator over pure functions whose entries record each of their calls,
name and arguments, at the end of a log. -/
def Calculator.logged {F : Type} (c : Calculator F) :
    CalculatorSt F (List (String × List F)) :=
  c.withEffect (fun name args log => log ++ [(name, args)])

section overState

variable {F S : Type} [Zero F] [Add F] [Sub F] [Mul F] [Div F]

/-- The method `Calculator.call` over a program state. -/
def callSt (c : CalculatorSt F S) (funcName : String) (args : List F) (s : S) :
    Outcome F × S :=
  match (c.functions s).lookup funcName with
  | none => (.ret 0 (some ⟨"unknown function " ++ funcName⟩), s)
  | some (.func0 f) => (.ret (f s).1 none, (f s).2)
  | some (.func1 f) =>
    match args[0]? with
    | none => (.panic (.indexOutOfRange 0 args.length), s)
    | some a0 => (.ret (f a0 s).1 none, (f a0 s).2)
  | some (.func2 f) =>
    match args[0]? with
    | none => (.panic (.indexOutOfRange 0 args.length), s)
    | some a0 =>
      match args[1]? with
      | none => (.panic (.indexOutOfRange 1 args.length), s)
      | some a1 => (.ret (f a0 a1 s).1 none, (f a0 a1 s).2)
  | some (.func3 f) =>
    match args[0]? with
    | none => (.panic (.indexOutOfRange 0 args.length), s)
    | some a0 =>
      match args[1]? with
      | none => (.panic (.indexOutOfRange 1 args.length), s)
      | some a1 =>
        match args[2]? with
        | none => (.panic (.indexOutOfRange 2 args.length), s)
        | some a2 => (.ret (f a0 a1 a2 s).1 none, (f a0 a1 a2 s).2)
  | some .other => (.ret 0 (some ⟨"invalid function " ++ funcName⟩), s)

/-- The two evaluations of a binary node, left then right, the second starting
in the state the first leaves; `op` is the operator applied to the two
values. -/
def binarySt (op : F → F → F) (evalLeft evalRight : S → Outcome F × S) (s : S) :
    Outcome F × S :=
  match evalLeft s with
  | (.panic p, s1) => (.panic p, s1)
  | (.ret _ (some err), s1) => (.ret 0 (some err), s1)
  | (.ret l none, s1) =>
    match evalRight s1 with
    | (.panic p, s2) => (.panic p, s2)
    | (.ret _ (some err), s2) => (.ret 0 (some err), s2)
    | (.ret r none, s2) => (.ret (op l r) none, s2)

mutual
/-- The method `Calculator.calculate` on a `*node`, over a program state. -/
def calculateSt (c : CalculatorSt F S) : Option (node F) → S → Outcome F × S
  | none, s => (.panic .nilPointerDereference, s)
  | some n, s => calculateNodeSt c n s
/-- The switch of `Calculator.calculate`, over a program state. -/
def calculateNodeSt (c : CalculatorSt F S) : node F → S → Outcome F × S
  | .mk kind val left right funcName args, s =>
    match kind with
    | .addNode =>
      binarySt (fun l r => l + r) (calculateSt c left) (calculateSt c right) s
    | .subNode =>
      binarySt (fun l r => l - r) (calculateSt c left) (calculateSt c right) s
    | .mulNode =>
      binarySt (fun l r => l * r) (calculateSt c left) (calculateSt c right) s
    | .divNode =>
      binarySt (fun l r => l / r) (calculateSt c left) (calculateSt c right) s
    | .numNode => (.ret val none, s)
    | .funcNode => calculateArgsSt c funcName args [] s
    | .other name => (.ret 0 (some ⟨"unknown node type: " ++ name⟩), s)
/-- The loop of the `funcNode` case and the call that follows it, over a program
state. -/
def calculateArgsSt (c : CalculatorSt F S) (funcName : String) :
    List (node F) → List F → S → Outcome F × S
  | [], args, s => callSt c funcName args s
  | arg :: rest, args, s =>
    match calculateNodeSt c arg s with
    | (.panic p, s1) => (.panic p, s1)
    | (.ret _ (some err), s1) => (.ret 0 (some err), s1)
    | (.ret val none, s1) => calculateArgsSt c funcName rest (args ++ [val]) s1
end

/-- The method `Calculator.Calculate` over a program state. The front end is
given as parameters: `tokenize`, `newParser` (which receives the map
`c.functions`) and `parse` each take the state before their call and give the
state after it. -/
def CalculateSt {T P : Type} (tokenize : String → S → Outcome T × S)
    (newParser : T → (S → List (String × anySt F S)) → S → P × S)
    (parse : P → S → Outcome (Option (node F)) × S)
    (c : CalculatorSt F S) (expr : String) (s : S) : Outcome F × S :=
  match tokenize expr s with
  | (.panic p, s1) => (.panic p, s1)
  | (.ret _ (some err), s1) => (.ret 0 (some err), s1)
  | (.ret tokens none, s1) =>
    match parse (newParser tokens c.functions s1).1 (newParser tokens c.functions s1).2 with
    | (.panic p, s2) => (.panic p, s2)
    | (.ret _ (some err), s2) => (.ret 0 (some err), s2)
    | (.ret n none, s2) => calculateSt c n s2

/-- The arguments `args`, evaluated one after the other from the state `s`, each
without error, give the values `vs` and leave the state `s1`. -/
inductive argsEvaluate (c : CalculatorSt F S) :
    List (node F) → S → List F → S → Prop where
  | nil (s : S) : argsEvaluate c [] s [] s
  | cons (a : node F) (rest : List (node F)) (s s1 s2 : S) (v : F) (vs : List F) :
      calculateNodeSt c a s = (.ret v none, s1) → argsEvaluate c rest s1 vs s2 →
      argsEvaluate c (a :: rest) s (v :: vs) s2

/-- The calls of table entries made while `calculate` evaluates a tree, in the
order in which they are made: the log left by the calculator whose entries
record their calls, started from the empty log. -/
def invocations (c : Calculator F) (n : Option (node F)) : List (String × List F) :=
  (calculateSt c.logged n []).2

end overState

/-- The tree of `foo(sqrt(4))`: the name is not in the table, and the argument
evaluates without error by calling `sqrt`. -/
def treeFooSqrt : node sym := funcCall "foo" [funcCall "sqrt" [numLeaf (.lit 4)]]

/-- A calculator over an integer counter as program state, with the single entry
`tick`, a function of no parameter that returns the counter and adds one to
it. -/
def tickCalc : CalculatorSt sym Int :=
  { functions := fun _ => [("tick", .func0 (fun n => (sym.lit n, n + 1)))] }

/-- A front end that leaves the state as it finds it: the tokens are the
characters of the expression. -/
def quietTokenize {S : Type} (expr : String) (s : S) : Outcome (List Char) × S :=
  (.ret expr.toList none, s)

/-- The parser state of the front end used with `quietTokenize`: the tokens,
the state left as it is. -/
def quietNewParser {S : Type} (tokens : List Char)
    (_ : S → List (String × anySt sym S)) (s : S) : List Char × S :=
  (tokens, s)

/-- The parser of the front end used with `quietTokenize`: `tick()` is the call
of `tick` without arguments, `7` is the number 7 and anything else is a parse
error; the state is left as it is. -/
def quietParse {S : Type} (tokens : List Char) (s : S) :
    Outcome (Option (node sym)) × S :=
  if tokens = "tick()".toList then (.ret (some (funcCall "tick" [])) none, s)
  else if tokens = ['7'] then (.ret (some (numLeaf (.lit 7))) none, s)
  else (.ret none (some ⟨"unexpected token"⟩), s)


/-! ## The sub-tree at which evaluation fails first -/

section firstFailure

variable {F : Type} [Zero F] [Add F] [Sub F] [Mul F] [Div F]

/-- The relation `evaluatedFirst c sub t`: the node `sub` occurs in the tree `t`
and everything `calculate` evaluates in `t` before it reaches `sub` succeeds: on
the way down to `sub`, a left child lies on the way, or the left child
evaluates without error and the right child lies on the way, or the arguments
before the one on the way evaluate without error. -/
inductive evaluatedFirst (c : Calculator F) (sub : node F) : node F → Prop where
  | here : evaluatedFirst c sub sub
  | left (kind : nodeKind) (val : F) (l : node F) (right : Option (node F))
      (funcName : String) (args : List (node F)) :
      kind.isBinary = true → evaluatedFirst c sub l →
      evaluatedFirst c sub (.mk kind val (some l) right funcName args)
  | right (kind : nodeKind) (val : F) (left : Option (node F)) (r : node F)
      (funcName : String) (args : List (node F)) (lv : F) :
      kind.isBinary = true → calculate c left = .ret lv none →
      evaluatedFirst c sub r →
      evaluatedFirst c sub (.mk kind val left (some r) funcName args)
  | arg (val : F) (left right : Option (node F)) (funcName : String)
      (pre : List (node F)) (a : node F) (post : List (node F)) :
      (∀ p ∈ pre, ∃ w, calculateNode c p = .ret w none) →
      evaluatedFirst c sub a →
      evaluatedFirst c sub (.mk .funcNode val left right funcName (pre ++ a :: post))

end firstFailure

/-- A node of a kind that is none of the six, over children that would fail. -/
def treeBadKind : node sym :=
  .mk (.other "neg") (.lit 5) (some (funcCall "foo" [])) none "bar" [funcCall "baz" []]

/-- The tree of `sqrt(1 + max(2, bad))`, `bad` being the node `treeBadKind`. -/
def treeAroundBadKind : node sym :=
  funcCall "sqrt"
    [binNode .addNode (numLeaf (.lit 1)) (funcCall "max" [numLeaf (.lit 2), treeBadKind])]

/-! ## Unfolding lemmas -/

section callLemmas

variable {F : Type} [Zero F]

/-- A table entry that is a function returns a value when it is given as many
arguments as it has parameters. -/
theorem call_arity_ok (c : Calculator F) (fn : String) (f : any F) (args : List F)
    (hf : c.functions.lookup fn = some f) (ha : f.arity = some args.length) :
    ∃ v, call c fn args = .ret v none := by
  cases f with
  | func0 g => exact ⟨g (), by simp [call, hf]⟩
  | func1 g =>
    match args, ha with
    | [a0], _ => exact ⟨g a0, by simp [call, hf]⟩
  | func2 g =>
    match args, ha with
    | [a0, a1], _ => exact ⟨g a0 a1, by simp [call, hf]⟩
  | func3 g =>
    match args, ha with
    | [a0, a1, a2], _ => exact ⟨g a0 a1 a2, by simp [call, hf]⟩
  | other => simp [any.arity] at ha

/-- With more arguments than parameters the surplus is not read. -/
theorem call_surplus (c : Calculator F) (fn : String) (f : any F) (k : Nat)
    (vs : List F) (hf : c.functions.lookup fn = some f) (hk : f.arity = some k)
    (hlt : k < vs.length) :
    ∃ v, call c fn vs = .ret v none ∧ call c fn (vs.take k) = .ret v none := by
  cases f with
  | func0 g =>
    exact ⟨g (), by simp [call, hf], by simp [call, hf]⟩
  | func1 g =>
    obtain rfl : k = 1 := by simpa [any.arity] using hk.symm
    match vs, hlt with
    | a0 :: _ :: _, _ => exact ⟨g a0, by simp [call, hf], by simp [call, hf]⟩
  | func2 g =>
    obtain rfl : k = 2 := by simpa [any.arity] using hk.symm
    match vs, hlt with
    | a0 :: a1 :: _ :: _, _ =>
      exact ⟨g a0 a1, by simp [call, hf], by simp [call, hf]⟩
  | func3 g =>
    obtain rfl : k = 3 := by simpa [any.arity] using hk.symm
    match vs, hlt with
    | a0 :: a1 :: a2 :: _ :: _, _ =>
      exact ⟨g a0 a1 a2, by simp [call, hf], by simp [call, hf]⟩
  | other => simp [any.arity] at hk

/-- With fewer arguments than parameters the first index past the end is read. -/
theorem call_short (c : Calculator F) (fn : String) (f : any F) (k : Nat)
    (vs : List F) (hf : c.functions.lookup fn = some f) (hk : f.arity = some k)
    (hlt : vs.length < k) :
    call c fn vs = .panic (.indexOutOfRange vs.length vs.length) := by
  cases f with
  | func0 g =>
    obtain rfl : k = 0 := by simpa [any.arity] using hk.symm
    simp at hlt
  | func1 g =>
    obtain rfl : k = 1 := by simpa [any.arity] using hk.symm
    match vs, hlt with
    | [], _ => simp [call, hf]
  | func2 g =>
    obtain rfl : k = 2 := by simpa [any.arity] using hk.symm
    match vs, hlt with
    | [], _ => simp [call, hf]
    | [_], _ => simp [call, hf]
  | func3 g =>
    obtain rfl : k = 3 := by simpa [any.arity] using hk.symm
    match vs, hlt with
    | [], _ => simp [call, hf]
    | [_], _ => simp [call, hf]
    | [_, _], _ => simp [call, hf]
  | other => simp [any.arity] at hk

/-- An error returned by `call` comes with the value 0. -/
theorem call_err_zero (c : Calculator F) (fn : String) (args : List F) (v : F)
    (e : error) (h : call c fn args = .ret v (some e)) : v = 0 := by
  unfold call at h
  split at h <;> (try split at h) <;> (try split at h) <;> (try split at h) <;>
    simp at h <;> exact h.1.symm

end callLemmas

section lemmas

variable {F : Type} [Zero F] [Add F] [Sub F] [Mul F] [Div F]

theorem calculate_some (c : Calculator F) (n : node F) :
    calculate c (some n) = calculateNode c n := by
  simp [calculate]

theorem calculateArgs_nil (c : Calculator F) (fn : String) (acc : List F) :
    calculateArgs c fn [] acc = call c fn acc := by
  simp [calculateArgs]

theorem calculateArgs_cons_ok (c : Calculator F) (fn : String) (a : node F)
    (rest : List (node F)) (acc : List F) (v : F)
    (h : calculateNode c a = .ret v none) :
    calculateArgs c fn (a :: rest) acc = calculateArgs c fn rest (acc ++ [v]) := by
  simp [calculateArgs, h]

theorem calculateArgs_cons_err (c : Calculator F) (fn : String) (a : node F)
    (rest : List (node F)) (acc : List F) (v : F) (e : error)
    (h : calculateNode c a = .ret v (some e)) :
    calculateArgs c fn (a :: rest) acc = .ret 0 (some e) := by
  simp [calculateArgs, h]

/-- When the arguments evaluate to the values `vs`, one by one and without
error, the loop ends in the call on the values in the same order. -/
theorem calculateArgs_values (c : Calculator F) (fn : String)
    (rest : List (node F)) (vs : List F)
    (h : List.Forall₂ (fun a v => calculateNode c a = .ret v none) rest vs) :
    ∀ acc : List F, calculateArgs c fn rest acc = call c fn (acc ++ vs) := by
  induction h with
  | nil => intro acc; simp [calculateArgs_nil]
  | cons hav _ ih =>
    intro acc
    rw [calculateArgs_cons_ok c fn _ _ acc _ hav, ih]
    simp

/-- Arguments that all evaluate without error have a list of values. -/
theorem values_of_all_ok (c : Calculator F) (args : List (node F))
    (h : ∀ a ∈ args, ∃ v, calculateNode c a = .ret v none) :
    ∃ vs : List F,
      List.Forall₂ (fun a v => calculateNode c a = .ret v none) args vs := by
  induction args with
  | nil => exact ⟨[], List.Forall₂.nil⟩
  | cons a rest ih =>
    obtain ⟨v, hv⟩ := h a (List.mem_cons_self a rest)
    obtain ⟨vs, hvs⟩ := ih (fun b hb => h b (List.mem_cons_of_mem a hb))
    exact ⟨v :: vs, List.Forall₂.cons hv hvs⟩

/-- The first argument that returns an error ends the loop with that error. -/
theorem calculateArgs_first_err (c : Calculator F) (fn : String)
    (pre : List (node F)) (a : node F) (post : List (node F)) (v : F) (e : error)
    (hpre : ∀ p ∈ pre, ∃ w, calculateNode c p = .ret w none)
    (ha : calculateNode c a = .ret v (some e)) :
    ∀ acc : List F, calculateArgs c fn (pre ++ a :: post) acc = .ret 0 (some e) := by
  induction pre with
  | nil => intro acc; simpa using calculateArgs_cons_err c fn a post acc v e ha
  | cons p pre ih =>
    intro acc
    obtain ⟨w, hw⟩ := hpre p (List.mem_cons_self p pre)
    rw [List.cons_append, calculateArgs_cons_ok c fn p _ acc w hw]
    exact ih (fun q hq => hpre q (List.mem_cons_of_mem p hq)) _

/-- The first argument that panics ends the loop with that panic. -/
theorem calculateArgs_first_panic (c : Calculator F) (fn : String)
    (pre : List (node F)) (a : node F) (post : List (node F)) (p : panicValue)
    (hpre : ∀ q ∈ pre, ∃ w, calculateNode c q = .ret w none)
    (ha : calculateNode c a = .panic p) :
    ∀ acc : List F, calculateArgs c fn (pre ++ a :: post) acc = .panic p := by
  induction pre with
  | nil => intro acc; simp [calculateArgs, ha]
  | cons q pre ih =>
    intro acc
    obtain ⟨w, hw⟩ := hpre q (List.mem_cons_self q pre)
    rw [List.cons_append, calculateArgs_cons_ok c fn q _ acc w hw]
    exact ih (fun r hr => hpre r (List.mem_cons_of_mem q hr)) _

end lemmas

/-! ## Lemmas on whole trees -/

section treeLemmas

variable {F : Type} [Zero F] [Add F] [Sub F] [Mul F] [Div F]

theorem calculateArgs_err_zero (c : Calculator F) (fn : String)
    (rest : List (node F)) :
    ∀ (acc : List F) (v : F) (e : error),
      calculateArgs c fn rest acc = .ret v (some e) → v = 0 := by
  induction rest with
  | nil =>
    intro acc v e h
    rw [calculateArgs_nil] at h
    exact call_err_zero c fn acc v e h
  | cons a rest ih =>
    intro acc v e h
    simp only [calculateArgs] at h
    split at h
    · simp at h
    · simp at h; exact h.1.symm
    · exact ih _ v e h

theorem calculateNode_err_zero (c : Calculator F) (n : node F) (v : F) (e : error)
    (h : calculateNode c n = .ret v (some e)) : v = 0 := by
  obtain ⟨kind, val, left, right, fn, args⟩ := n
  cases kind with
  | numNode => simp [calculateNode] at h
  | funcNode =>
    simp only [calculateNode] at h
    exact calculateArgs_err_zero c fn args [] v e h
  | other s =>
    simp [calculateNode] at h
    exact h.1.symm
  | addNode =>
    simp only [calculateNode] at h
    split at h
    · simp at h
    · simp at h; exact h.1.symm
    · split at h <;> simp at h
      exact h.1.symm
  | subNode =>
    simp only [calculateNode] at h
    split at h
    · simp at h
    · simp at h; exact h.1.symm
    · split at h <;> simp at h
      exact h.1.symm
  | mulNode =>
    simp only [calculateNode] at h
    split at h
    · simp at h
    · simp at h; exact h.1.symm
    · split at h <;> simp at h
      exact h.1.symm
  | divNode =>
    simp only [calculateNode] at h
    split at h
    · simp at h
    · simp at h; exact h.1.symm
    · split at h <;> simp at h
      exact h.1.symm

theorem calculate_err_zero (c : Calculator F) (n : Option (node F)) (v : F)
    (e : error) (h : calculate c n = .ret v (some e)) : v = 0 := by
  cases n with
  | none => simp [calculate] at h
  | some n =>
    rw [calculate_some] at h
    exact calculateNode_err_zero c n v e h

/-- What a function node evaluates to once its arguments have values. -/
theorem calculate_func_values (c : Calculator F) (val : F)
    (left right : Option (node F)) (fn : String) (args : List (node F))
    (vs : List F)
    (h : List.Forall₂ (fun a v => calculateNode c a = .ret v none) args vs) :
    calculate c (some (.mk .funcNode val left right fn args)) = call c fn vs := by
  rw [calculate_some]
  simp only [calculateNode]
  simpa using calculateArgs_values c fn args vs h []

/-- The invariant of the parser rules out every error and every panic. -/
theorem wellFormed_returns (c : Calculator F) (n : node F) (h : wellFormed c n) :
    ∃ v, calculateNode c n = .ret v none := by
  induction h with
  | num val left right funcName args => exact ⟨val, by simp [calculateNode]⟩
  | binary kind val l r funcName args hk _ _ ihl ihr =>
    obtain ⟨a, ha⟩ := ihl
    obtain ⟨b, hb⟩ := ihr
    cases kind with
    | addNode => exact ⟨a + b, by simp [calculate, calculateNode, ha, hb]⟩
    | subNode => exact ⟨a - b, by simp [calculate, calculateNode, ha, hb]⟩
    | mulNode => exact ⟨a * b, by simp [calculate, calculateNode, ha, hb]⟩
    | divNode => exact ⟨a / b, by simp [calculate, calculateNode, ha, hb]⟩
    | numNode => simp [nodeKind.isBinary] at hk
    | funcNode => simp [nodeKind.isBinary] at hk
    | other s => simp [nodeKind.isBinary] at hk
  | func val left right funcName args f hf ha _ ih =>
    obtain ⟨vs, hvs⟩ := values_of_all_ok c args ih
    have hlen : f.arity = some vs.length := by rw [← hvs.length_eq]; exact ha
    obtain ⟨v, hv⟩ := call_arity_ok c funcName f vs hf hlen
    refine ⟨v, ?_⟩
    rw [← calculate_some, calculate_func_values c val left right funcName args vs hvs]
    exact hv

end treeLemmas


/-! ## Lemmas on tables -/

section tableLemmas

variable {F : Type}

/-- A key that `lookup` finds is a key of the list, with the value found. -/
theorem mem_of_lookup {β : Type} (l : List (String × β)) (k : String) (v : β)
    (h : l.lookup k = some v) : (k, v) ∈ l := by
  induction l with
  | nil => simp at h
  | cons p l ih =>
    obtain ⟨k2, v2⟩ := p
    rw [List.lookup_cons] at h
    split at h
    · rename_i heq
      have hk : k = k2 := by simpa using heq
      simp at h
      subst hk
      subst h
      exact List.mem_cons_self _ _
    · exact List.mem_cons_of_mem _ (ih h)

/-- Looking a name up in the surface is looking it up in the table. -/
theorem lookup_surface (functions : List (String × any F)) (name : String) :
    (surface functions).lookup name = (functions.lookup name).map any.arity := by
  induction functions with
  | nil => simp [surface]
  | cons p l ih =>
    obtain ⟨k, f⟩ := p
    simp only [surface, List.map_cons, List.lookup_cons] at ih ⊢
    split
    · simp
    · exact ih

/-- The surface of `mathFunctions`, entry by entry. -/
theorem surface_mathFunctions (math : mathPkg F) :
    surface (mathFunctions math) =
      [("abs", some 1), ("acos", some 1), ("acosh", some 1), ("asin", some 1),
       ("asinh", some 1), ("atan", some 1), ("atan2", some 2), ("atanh", some 1),
       ("cbrt", some 1), ("ceil", some 1), ("copysign", some 2), ("cos", some 1),
       ("cosh", some 1), ("dim", some 2), ("erf", some 1), ("erfc", some 1),
       ("erfcinv", some 1), ("erfinv", some 1), ("exp", some 1), ("exp2", some 1),
       ("expm1", some 1), ("fma", some 3), ("floor", some 1), ("gamma", some 1),
       ("hypot", some 2), ("j0", some 1), ("j1", some 1), ("log", some 1),
       ("log10", some 1), ("log1p", some 1), ("log2", some 1), ("logb", some 1),
       ("max", some 2), ("min", some 2), ("mod", some 2), ("nan", some 0),
       ("nextafter", some 2), ("pow", some 2), ("remainder", some 2),
       ("round", some 1), ("roundtoeven", some 1), ("sin", some 1),
       ("sinh", some 1), ("sqrt", some 1), ("tan", some 1), ("tanh", some 1),
       ("trunc", some 1), ("y0", some 1), ("y1", some 1)] := rfl

/-- Every entry of `mathFunctions` is a function of at most three parameters. -/
theorem mathFunctions_arity_le (math : mathPkg F) (name : String) (f : any F)
    (h : (name, f) ∈ mathFunctions math) : ∃ k, k ≤ 3 ∧ f.arity = some k := by
  have hmem : (name, f.arity) ∈ surface (mathFunctions math) :=
    List.mem_map.mpr ⟨(name, f), h, rfl⟩
  rw [surface_mathFunctions] at hmem
  have hall : ∀ p ∈ surface (mathFunctions symMath),
      p.2 = some 0 ∨ p.2 = some 1 ∨ p.2 = some 2 ∨ p.2 = some 3 := by decide
  rw [surface_mathFunctions] at hall
  rcases hall _ hmem with h0 | h1 | h2 | h3
  · exact ⟨0, by omega, h0⟩
  · exact ⟨1, by omega, h1⟩
  · exact ⟨2, by omega, h2⟩
  · exact ⟨3, by omega, h3⟩

/-- The two messages of `call` differ, whatever the name. -/
theorem unknown_ne_invalid (name : String) :
    "unknown function " ++ name ≠ "invalid function " ++ name := by
  intro h
  have h2 := congrArg String.data h
  simp only [String.data_append] at h2
  have h3 := congrArg List.head? h2
  simp at h3

end tableLemmas

/-! ## Lemmas on the evaluator over a program state -/

section stateTable

variable {F S : Type}

/-- Looking a name up in a table with effects added is looking it up in the
table of pure functions. -/
theorem lookup_withEffect (effect : String → List F → S → S) (c : Calculator F)
    (s : S) (fn : String) :
    ((c.withEffect effect).functions s).lookup fn
      = (c.functions.lookup fn).map (fun f => f.withEffect (effect fn)) := by
  obtain ⟨l⟩ := c
  simp only [Calculator.withEffect]
  induction l with
  | nil => simp
  | cons p l ih =>
    obtain ⟨k, f⟩ := p
    simp only [List.map_cons, List.lookup_cons]
    cases hk : fn == k with
    | true =>
      have hfk : fn = k := by simpa using hk
      subst hfk
      simp
    | false => simpa using ih

/-- The entries of a calculator over pure functions leave every state as it
is. -/
theorem lift_readOnly (c : Calculator F) (s : S) (name : String) (f : anySt F S)
    (h : ((c.lift : CalculatorSt F S).functions s).lookup name = some f) :
    f.readOnly := by
  unfold Calculator.lift at h
  rw [lookup_withEffect] at h
  cases hl : c.functions.lookup name with
  | none => rw [hl] at h; simp at h
  | some g =>
    rw [hl] at h
    simp only [Option.map_some', Option.some.injEq] at h
    subst h
    cases g with
    | func0 g => intro s; rfl
    | func1 g => intro a s; rfl
    | func2 g => intro a b s; rfl
    | func3 g => intro a b d s; rfl
    | other => trivial

/-- The parser used with `quietTokenize` leaves the state as it is. -/
theorem quietParse_snd (tokens : List Char) (s : S) : (quietParse tokens s).2 = s := by
  unfold quietParse
  split
  · rfl
  · split <;> rfl

end stateTable

section stateCall

variable {F S : Type} [Zero F]

/-- With effects added to the entries, `call` has the outcome it has on the
table of pure functions. -/
theorem callSt_withEffect_fst (effect : String → List F → S → S) (c : Calculator F)
    (fn : String) (args : List F) (s : S) :
    (callSt (c.withEffect effect) fn args s).1 = call c fn args := by
  unfold callSt call
  rw [lookup_withEffect]
  cases c.functions.lookup fn with
  | none => rfl
  | some f =>
    cases f with
    | func0 g => rfl
    | func1 g =>
      simp only [Option.map_some', any.withEffect]
      cases args[0]? <;> rfl
    | func2 g =>
      simp only [Option.map_some', any.withEffect]
      cases args[0]? with
      | none => rfl
      | some a0 => cases args[1]? <;> rfl
    | func3 g =>
      simp only [Option.map_some', any.withEffect]
      cases args[0]? with
      | none => rfl
      | some a0 =>
        cases args[1]? with
        | none => rfl
        | some a1 => cases args[2]? <;> rfl
    | other => rfl

/-- When the entries of the table leave the state as it is, so does `call`. -/
theorem callSt_readOnly (c : CalculatorSt F S) (s : S)
    (hentries : ∀ name f, (c.functions s).lookup name = some f → f.readOnly)
    (fn : String) (args : List F) : (callSt c fn args s).2 = s := by
  unfold callSt
  cases hl : (c.functions s).lookup fn with
  | none => rfl
  | some f =>
    have hro := hentries fn f hl
    cases f with
    | func0 g => exact hro s
    | func1 g =>
      simp only
      cases args[0]? with
      | none => rfl
      | some a0 => exact hro a0 s
    | func2 g =>
      simp only
      cases args[0]? with
      | none => rfl
      | some a0 =>
        cases args[1]? with
        | none => rfl
        | some a1 => exact hro a0 a1 s
    | func3 g =>
      simp only
      cases args[0]? with
      | none => rfl
      | some a0 =>
        cases args[1]? with
        | none => rfl
        | some a1 =>
          cases args[2]? with
          | none => rfl
          | some a2 => exact hro a0 a1 a2 s
    | other => rfl

/-- A name that is not a key of the map is answered without a call: the state
is the one `call` was given, whatever the entries of the map do. -/
theorem callSt_unknown (c : CalculatorSt F S) (fn : String) (args : List F) (s : S)
    (hf : (c.functions s).lookup fn = none) :
    callSt c fn args s = (.ret 0 (some ⟨"unknown function " ++ fn⟩), s) := by
  simp [callSt, hf]

/-- Two evaluations that leave the state `s` as it is combine into one that
does. -/
theorem binarySt_snd (op : F → F → F) (evalLeft evalRight : S → Outcome F × S)
    (s : S) (hl : (evalLeft s).2 = s) (hr : (evalRight s).2 = s) :
    (binarySt op evalLeft evalRight s).2 = s := by
  unfold binarySt
  rcases hL : evalLeft s with ⟨ol, s1⟩
  rw [hL] at hl
  simp only at hl
  subst hl
  cases ol with
  | panic p => rfl
  | ret l el =>
    cases el with
    | some e => rfl
    | none =>
      simp only
      rcases hR : evalRight s1 with ⟨orr, s2⟩
      rw [hR] at hr
      simp only at hr
      subst hr
      cases orr with
      | panic p => rfl
      | ret r er => cases er <;> rfl

/-- Two evaluations whose outcomes do not depend on the state combine into one
whose outcome is the one of the binary node. -/
theorem binarySt_fst (op : F → F → F) (evalLeft evalRight : S → Outcome F × S)
    (pureLeft pureRight : Outcome F) :
    (∀ s, (evalLeft s).1 = pureLeft) → (∀ s, (evalRight s).1 = pureRight) →
    ∀ s, (binarySt op evalLeft evalRight s).1 =
      match pureLeft with
      | .panic p => .panic p
      | .ret _ (some err) => .ret 0 (some err)
      | .ret l none =>
        match pureRight with
        | .panic p => .panic p
        | .ret _ (some err) => .ret 0 (some err)
        | .ret r none => .ret (op l r) none := by
  intro hl hr s
  unfold binarySt
  rcases hL : evalLeft s with ⟨ol, s1⟩
  have hl2 := hl s
  rw [hL] at hl2
  simp only at hl2
  subst hl2
  cases ol with
  | panic p => rfl
  | ret l el =>
    cases el with
    | some e => rfl
    | none =>
      simp only
      rcases hR : evalRight s1 with ⟨orr, s2⟩
      have hr2 := hr s1
      rw [hR] at hr2
      simp only at hr2
      subst hr2
      cases orr with
      | panic p => rfl
      | ret r er => cases er <;> rfl

end stateCall

section stateLemmas

variable {F S : Type} [Zero F] [Add F] [Sub F] [Mul F] [Div F]

mutual
/-- When the entries of the table leave the state as it is, so does
`calculate`. -/
theorem calculateSt_readOnly (c : CalculatorSt F S) (s : S)
    (hentries : ∀ name f, (c.functions s).lookup name = some f → f.readOnly) :
    ∀ n : Option (node F), (calculateSt c n s).2 = s
  | none => by simp [calculateSt]
  | some n => by
    simp only [calculateSt]
    exact calculateNodeSt_readOnly c s hentries n
/-- When the entries of the table leave the state as it is, so does the
switch. -/
theorem calculateNodeSt_readOnly (c : CalculatorSt F S) (s : S)
    (hentries : ∀ name f, (c.functions s).lookup name = some f → f.readOnly) :
    ∀ n : node F, (calculateNodeSt c n s).2 = s
  | .mk kind val left right fn args => by
    cases kind with
    | numNode => simp [calculateNodeSt]
    | other name => simp [calculateNodeSt]
    | funcNode =>
      simp only [calculateNodeSt]
      exact calculateArgsSt_readOnly c s hentries fn args []
    | addNode =>
      simp only [calculateNodeSt]
      exact binarySt_snd _ _ _ s (calculateSt_readOnly c s hentries left)
        (calculateSt_readOnly c s hentries right)
    | subNode =>
      simp only [calculateNodeSt]
      exact binarySt_snd _ _ _ s (calculateSt_readOnly c s hentries left)
        (calculateSt_readOnly c s hentries right)
    | mulNode =>
      simp only [calculateNodeSt]
      exact binarySt_snd _ _ _ s (calculateSt_readOnly c s hentries left)
        (calculateSt_readOnly c s hentries right)
    | divNode =>
      simp only [calculateNodeSt]
      exact binarySt_snd _ _ _ s (calculateSt_readOnly c s hentries left)
        (calculateSt_readOnly c s hentries right)
/-- When the entries of the table leave the state as it is, so does the
loop. -/
theorem calculateArgsSt_readOnly (c : CalculatorSt F S) (s : S)
    (hentries : ∀ name f, (c.functions s).lookup name = some f → f.readOnly)
    (fn : String) :
    ∀ (rest : List (node F)) (acc : List F), (calculateArgsSt c fn rest acc s).2 = s
  | [], acc => by
    simp only [calculateArgsSt]
    exact callSt_readOnly c s hentries fn acc
  | a :: rest, acc => by
    simp only [calculateArgsSt]
    have ha := calculateNodeSt_readOnly c s hentries a
    rcases hA : calculateNodeSt c a s with ⟨o, s1⟩
    rw [hA] at ha
    simp only at ha
    subst ha
    cases o with
    | panic p => rfl
    | ret v ev =>
      cases ev with
      | some e => rfl
      | none =>
        simp only
        exact calculateArgsSt_readOnly c s1 hentries fn rest (acc ++ [v])
end

mutual
/-- With effects added to the entries, `calculate` has the outcome it has on the
table of pure functions. -/
theorem calculateSt_withEffect_fst (effect : String → List F → S → S)
    (c : Calculator F) :
    ∀ (n : Option (node F)) (s : S),
      (calculateSt (c.withEffect effect) n s).1 = calculate c n
  | none, s => by simp [calculateSt, calculate]
  | some n, s => by
    simp only [calculateSt, calculate]
    exact calculateNodeSt_withEffect_fst effect c n s
/-- With effects added to the entries, the switch has the outcome it has on the
table of pure functions. -/
theorem calculateNodeSt_withEffect_fst (effect : String → List F → S → S)
    (c : Calculator F) :
    ∀ (n : node F) (s : S),
      (calculateNodeSt (c.withEffect effect) n s).1 = calculateNode c n
  | .mk kind val left right fn args, s => by
    cases kind with
    | numNode => simp [calculateNodeSt, calculateNode]
    | other name => simp [calculateNodeSt, calculateNode]
    | funcNode =>
      simp only [calculateNodeSt, calculateNode]
      exact calculateArgsSt_withEffect_fst effect c fn args [] s
    | addNode =>
      simp only [calculateNodeSt, calculateNode]
      exact binarySt_fst _ _ _ _ _ (calculateSt_withEffect_fst effect c left)
        (calculateSt_withEffect_fst effect c right) s
    | subNode =>
      simp only [calculateNodeSt, calculateNode]
      exact binarySt_fst _ _ _ _ _ (calculateSt_withEffect_fst effect c left)
        (calculateSt_withEffect_fst effect c right) s
    | mulNode =>
      simp only [calculateNodeSt, calculateNode]
      exact binarySt_fst _ _ _ _ _ (calculateSt_withEffect_fst effect c left)
        (calculateSt_withEffect_fst effect c right) s
    | divNode =>
      simp only [calculateNodeSt, calculateNode]
      exact binarySt_fst _ _ _ _ _ (calculateSt_withEffect_fst effect c left)
        (calculateSt_withEffect_fst effect c right) s
/-- With effects added to the entries, the loop has the outcome it has on the
table of pure functions. -/
theorem calculateArgsSt_withEffect_fst (effect : String → List F → S → S)
    (c : Calculator F) (fn : String) :
    ∀ (rest : List (node F)) (acc : List F) (s : S),
      (calculateArgsSt (c.withEffect effect) fn rest acc s).1
        = calculateArgs c fn rest acc
  | [], acc, s => by
    simp only [calculateArgsSt, calculateArgs]
    exact callSt_withEffect_fst effect c fn acc s
  | a :: rest, acc, s => by
    simp only [calculateArgsSt, calculateArgs]
    have ha := calculateNodeSt_withEffect_fst effect c a s
    rcases hA : calculateNodeSt (c.withEffect effect) a s with ⟨o, s1⟩
    rw [hA] at ha
    simp only at ha
    rw [← ha]
    cases o with
    | panic p => rfl
    | ret v ev =>
      cases ev with
      | some e => rfl
      | none => exact calculateArgsSt_withEffect_fst effect c fn rest (acc ++ [v]) s1
end

/-- Over any program state, `calculate` on a calculator over pure functions has
the outcome of `calculate` and leaves the state as it is. -/
theorem calculateSt_lift (c : Calculator F) (n : Option (node F)) (s : S) :
    calculateSt (c.lift : CalculatorSt F S) n s = (calculate c n, s) :=
  Prod.ext (calculateSt_withEffect_fst _ c n s)
    (calculateSt_readOnly c.lift s (lift_readOnly c s) n)

/-- When the arguments evaluate without error, the loop ends in the call on
their values, in the state they leave. -/
theorem calculateArgsSt_of_argsEvaluate (c : CalculatorSt F S) (fn : String)
    (args : List (node F)) (s s1 : S) (vs : List F)
    (h : argsEvaluate c args s vs s1) :
    ∀ acc : List F, calculateArgsSt c fn args acc s = callSt c fn (acc ++ vs) s1 := by
  induction h with
  | nil s => intro acc; simp [calculateArgsSt]
  | cons a rest s s1 s2 v vs ha _ ih =>
    intro acc
    simp only [calculateArgsSt, ha]
    rw [ih]
    simp

/-- When the front end and the entries of the table leave the state as it is,
so does `Calculate`. -/
theorem CalculateSt_readOnly {T P : Type} (tokenize : String → S → Outcome T × S)
    (newParser : T → (S → List (String × anySt F S)) → S → P × S)
    (parse : P → S → Outcome (Option (node F)) × S)
    (c : CalculatorSt F S) (expr : String) (s : S)
    (hentries : ∀ name f, (c.functions s).lookup name = some f → f.readOnly)
    (htok : (tokenize expr s).2 = s)
    (hnew : ∀ tokens, (newParser tokens c.functions s).2 = s)
    (hparse : ∀ p, (parse p s).2 = s) :
    (CalculateSt tokenize newParser parse c expr s).2 = s := by
  unfold CalculateSt
  rcases hT : tokenize expr s with ⟨ot, s1⟩
  rw [hT] at htok
  simp only at htok
  subst htok
  cases ot with
  | panic p => rfl
  | ret ts et =>
    cases et with
    | some e => rfl
    | none =>
      simp only
      rw [hnew ts]
      have hp := hparse (newParser ts c.functions s1).1
      rcases hP : parse (newParser ts c.functions s1).1 s1 with ⟨op, s2⟩
      rw [hP] at hp
      simp only at hp
      subst hp
      cases op with
      | panic p => rfl
      | ret n en =>
        cases en with
        | some e => rfl
        | none =>
          simp only
          exact calculateSt_readOnly c s2 hentries n

end stateLemmas

section firstFailureLemmas

variable {F : Type} [Zero F] [Add F] [Sub F] [Mul F] [Div F]

/-- An error met at the node that is evaluated first is the result of the
whole tree. -/
theorem evaluatedFirst_error (c : Calculator F) (sub t : node F) (v : F)
    (e : error) (hsub : calculateNode c sub = .ret v (some e))
    (h : evaluatedFirst c sub t) : calculateNode c t = .ret 0 (some e) := by
  induction h with
  | here => rw [calculateNode_err_zero c sub v e hsub] at hsub; exact hsub
  | left kind val l right funcName args hk _ ih =>
    cases kind with
    | addNode => simp [calculateNode, calculate, ih]
    | subNode => simp [calculateNode, calculate, ih]
    | mulNode => simp [calculateNode, calculate, ih]
    | divNode => simp [calculateNode, calculate, ih]
    | numNode => simp [nodeKind.isBinary] at hk
    | funcNode => simp [nodeKind.isBinary] at hk
    | other s => simp [nodeKind.isBinary] at hk
  | right kind val left r funcName args lv hk hl _ ih =>
    cases kind with
    | addNode => simp [calculateNode, hl, calculate, ih]
    | subNode => simp [calculateNode, hl, calculate, ih]
    | mulNode => simp [calculateNode, hl, calculate, ih]
    | divNode => simp [calculateNode, hl, calculate, ih]
    | numNode => simp [nodeKind.isBinary] at hk
    | funcNode => simp [nodeKind.isBinary] at hk
    | other s => simp [nodeKind.isBinary] at hk
  | arg val left right funcName pre a post hpre _ ih =>
    simp only [calculateNode]
    exact calculateArgs_first_err c funcName pre a post 0 e hpre ih []

end firstFailureLemmas

/-! ## The claims -/

section claims

variable {F : Type} [Zero F] [Add F] [Sub F] [Mul F] [Div F]

/-- C1: on every tree built only from number nodes and from add, sub, mul and
div nodes with both children present, the reference denotation is defined and
`calculate` returns it with a nil error. -/
theorem calculate_arith_eq_denote (c : Calculator F) (n : node F)
    (h : arithTree n) :
    ∃ v, denote n = some v ∧ calculate c (some n) = .ret v none := by
  induction h with
  | num val left right funcName args =>
    exact ⟨val, by simp [denote], by simp [calculate, calculateNode]⟩
  | binary kind val l r funcName args hk _ _ ihl ihr =>
    obtain ⟨a, hda, hca⟩ := ihl
    obtain ⟨b, hdb, hcb⟩ := ihr
    cases kind with
    | addNode =>
      exact ⟨a + b, by simp [denote, denoteChild, hda, hdb],
        by simp [calculate_some, calculateNode, hca, hcb]⟩
    | subNode =>
      exact ⟨a - b, by simp [denote, denoteChild, hda, hdb],
        by simp [calculate_some, calculateNode, hca, hcb]⟩
    | mulNode =>
      exact ⟨a * b, by simp [denote, denoteChild, hda, hdb],
        by simp [calculate_some, calculateNode, hca, hcb]⟩
    | divNode =>
      exact ⟨a / b, by simp [denote, denoteChild, hda, hdb],
        by simp [calculate_some, calculateNode, hca, hcb]⟩
    | numNode => simp [nodeKind.isBinary] at hk
    | funcNode => simp [nodeKind.isBinary] at hk
    | other s => simp [nodeKind.isBinary] at hk

/-- Witness of C1: the tree of `(1+2)*3` is arithmetic and evaluates to
`(1+2)*3`. -/
theorem calculate_arith_eq_denote_witness :
    arithTree treeMulAdd ∧
      calculate symCalc (some treeMulAdd) = .ret ((.lit 1 + .lit 2) * .lit 3) none := by
  have hA : arithTree treeMulAdd :=
    .binary _ _ _ _ _ _ rfl
      (.binary _ _ _ _ _ _ rfl (.num _ _ _ _ _) (.num _ _ _ _ _)) (.num _ _ _ _ _)
  refine ⟨hA, ?_⟩
  obtain ⟨v, hd, hc⟩ := calculate_arith_eq_denote symCalc treeMulAdd hA
  have hv : denote treeMulAdd = some ((.lit 1 + .lit 2) * .lit 3) := by decide
  rw [hv] at hd
  cases hd
  exact hc

/-- C2: on every tree that satisfies the invariant of the parser relative to the
table built by `New`, `calculate` returns a value and a nil error; so it returns
none of the three evaluation errors and reads no index out of range. -/
theorem calculate_wellFormed_ok (math : mathPkg F) (n : node F)
    (h : wellFormed (New math) n) :
    ∃ v, calculate (New math) (some n) = .ret v none := by
  obtain ⟨v, hv⟩ := wellFormed_returns (New math) n h
  exact ⟨v, by rw [calculate_some]; exact hv⟩

/-- Witness of C2: the tree of `fma(2,3,4)` satisfies the invariant and evaluates
without error. -/
theorem calculate_wellFormed_ok_witness :
    wellFormed (New symMath) treeFma ∧
      ∃ v, calculate (New symMath) (some treeFma) = .ret v none := by
  have hW : wellFormed (New symMath) treeFma := by
    refine .func _ _ _ _ _ (.func3 symMath.FMA) rfl rfl ?_
    intro a ha
    simp only [List.mem_cons, List.mem_singleton, List.not_mem_nil, or_false] at ha
    rcases ha with rfl | rfl | rfl <;> exact .num _ _ _ _ _
  exact ⟨hW, calculate_wellFormed_ok symMath treeFma hW⟩

/-- C3: a function node whose name is bound to a function of k parameters
(k from 0 to 3) and whose k arguments evaluate without error to v1..vk
evaluates to that function applied to v1..vk in this order, with a nil error. -/
theorem calculate_func_applies (c : Calculator F) (val : F)
    (left right : Option (node F)) (fn : String) :
    (∀ f, c.functions.lookup fn = some (.func0 f) →
      calculate c (some (.mk .funcNode val left right fn [])) = .ret (f ()) none) ∧
    (∀ f a1 v1, c.functions.lookup fn = some (.func1 f) →
      calculateNode c a1 = .ret v1 none →
      calculate c (some (.mk .funcNode val left right fn [a1])) = .ret (f v1) none) ∧
    (∀ f a1 a2 v1 v2, c.functions.lookup fn = some (.func2 f) →
      calculateNode c a1 = .ret v1 none → calculateNode c a2 = .ret v2 none →
      calculate c (some (.mk .funcNode val left right fn [a1, a2]))
        = .ret (f v1 v2) none) ∧
    (∀ f a1 a2 a3 v1 v2 v3, c.functions.lookup fn = some (.func3 f) →
      calculateNode c a1 = .ret v1 none → calculateNode c a2 = .ret v2 none →
      calculateNode c a3 = .ret v3 none →
      calculate c (some (.mk .funcNode val left right fn [a1, a2, a3]))
        = .ret (f v1 v2 v3) none) := by
  refine ⟨?_, ?_, ?_, ?_⟩
  · intro f hf
    rw [calculate_func_values c val left right fn [] [] .nil]
    simp [call, hf]
  · intro f a1 v1 hf h1
    rw [calculate_func_values c val left right fn [a1] [v1] (.cons h1 .nil)]
    simp [call, hf]
  · intro f a1 a2 v1 v2 hf h1 h2
    rw [calculate_func_values c val left right fn [a1, a2] [v1, v2]
      (.cons h1 (.cons h2 .nil))]
    simp [call, hf]
  · intro f a1 a2 a3 v1 v2 v3 hf h1 h2 h3
    rw [calculate_func_values c val left right fn [a1, a2, a3] [v1, v2, v3]
      (.cons h1 (.cons h2 (.cons h3 .nil)))]
    simp [call, hf]

/-- Witness of C3: `fma(2,3,4)` evaluates to `FMA` applied to 2, 3 and 4 in this
order. -/
theorem calculate_func_applies_witness :
    calculate symCalc (some treeFma)
      = .ret (.app3 "FMA" (.lit 2) (.lit 3) (.lit 4)) none :=
  (calculate_func_applies symCalc 0 none none "fma").2.2.2 symMath.FMA
    (numLeaf (.lit 2)) (numLeaf (.lit 3)) (numLeaf (.lit 4))
    (.lit 2) (.lit 3) (.lit 4) rfl (by decide) (by decide) (by decide)

/-- Counterexample to C4: `sqrt(1,2)` evaluates to `Sqrt(1)` with a nil error, and
`pow(2)` panics on index 1 of a slice of length 1; neither returns an error. -/
theorem arity_mismatch_not_reported :
    calculate symCalc (some treeSqrt2) = .ret (.app1 "Sqrt" (.lit 1)) none ∧
    calculate symCalc (some treePow1) = .panic (.indexOutOfRange 1 1) ∧
    (¬ ∃ v e, calculate symCalc (some treeSqrt2) = .ret v (some e)) ∧
    (¬ ∃ v e, calculate symCalc (some treePow1) = .ret v (some e)) := by
  have h1 : calculate symCalc (some treeSqrt2)
      = .ret (.app1 "Sqrt" (.lit 1)) none := by decide
  have h2 : calculate symCalc (some treePow1) = .panic (.indexOutOfRange 1 1) := by
    decide
  refine ⟨h1, h2, ?_, ?_⟩
  · rintro ⟨v, e, h⟩
    rw [h1] at h
    simp at h
  · rintro ⟨v, e, h⟩
    rw [h2] at h
    simp at h

/-- C4, amended: for a function node whose name is bound to a function of k
parameters and whose arguments all evaluate without error, no arity error is
returned. With more than k arguments the node evaluates, with a nil error, to
the value it has with its first k arguments alone; with n arguments, n less
than k, evaluation panics reading index n of a slice of length n. -/
theorem calculate_arity_differs (c : Calculator F) (val : F)
    (left right : Option (node F)) (fn : String) (args : List (node F))
    (vs : List F) (f : any F) (k : Nat)
    (hf : c.functions.lookup fn = some f) (hk : f.arity = some k)
    (hv : List.Forall₂ (fun a v => calculateNode c a = .ret v none) args vs) :
    (k < args.length →
      ∃ v, calculate c (some (.mk .funcNode val left right fn args)) = .ret v none ∧
        calculate c (some (.mk .funcNode val left right fn (args.take k)))
          = .ret v none) ∧
    (args.length < k →
      calculate c (some (.mk .funcNode val left right fn args))
        = .panic (.indexOutOfRange args.length args.length)) := by
  rw [calculate_func_values c val left right fn args vs hv,
    calculate_func_values c val left right fn (args.take k) (vs.take k)
      (List.forall₂_take k hv), hv.length_eq]
  exact ⟨fun h => call_surplus c fn f k vs hf hk h,
    fun h => call_short c fn f k vs hf hk h⟩

/-- Witness of C4, amended: `sqrt(1,2)` evaluates like `sqrt(1)`, and `pow(2)`
panics. -/
theorem calculate_arity_differs_witness :
    (∃ v, calculate symCalc (some treeSqrt2) = .ret v none ∧
      calculate symCalc (some (funcCall "sqrt" [numLeaf (.lit 1)])) = .ret v none) ∧
    calculate symCalc (some treePow1) = .panic (.indexOutOfRange 1 1) :=
  ⟨(calculate_arity_differs symCalc 0 none none "sqrt"
      [numLeaf (.lit 1), numLeaf (.lit 2)] [.lit 1, .lit 2] (.func1 symMath.Sqrt) 1
      rfl rfl (.cons (by decide) (.cons (by decide) .nil))).1 (by decide),
   (calculate_arity_differs symCalc 0 none none "pow"
      [numLeaf (.lit 2)] [.lit 2] (.func2 symMath.Pow) 2
      rfl rfl (.cons (by decide) .nil)).2 (by decide)⟩

/-- Counterexample to C5: in `foo(sqrt(4))` the name `foo` is not a key of the
table and the argument evaluates without error; the result is 0 with the error
`unknown function foo`, and yet a function is invoked: `sqrt`, on 4. -/
theorem unknown_function_argument_invoked :
    symCalc.functions.lookup "foo" = none ∧
    (∀ a ∈ [funcCall "sqrt" [numLeaf (sym.lit 4)]],
      ∃ v, calculateNode symCalc a = .ret v none) ∧
    calculate symCalc (some treeFooSqrt) = .ret 0 (some ⟨"unknown function foo"⟩) ∧
    invocations symCalc (some treeFooSqrt) = [("sqrt", [.lit 4])] ∧
    invocations symCalc (some treeFooSqrt) ≠ [] := by
  refine ⟨rfl, ?_, by decide, by decide, by decide⟩
  intro a ha
  simp only [List.mem_singleton] at ha
  subst ha
  exact ⟨.app1 "Sqrt" (.lit 4), by decide⟩

/-- C5, amended: a function node whose name is not a key of the table and whose
arguments all evaluate without error evaluates to the value 0 with the error
`unknown function` followed by the name of the node. The dispatch invokes no
function: whatever the entries of the table do to the program state when they
are called, `call` on a name that is not a key leaves the state as it is, and
the state after the node is the state its arguments leave, so the only
functions invoked are those invoked while the arguments are evaluated. -/
theorem calculate_unknown_function :
    (∀ (c : Calculator F) (val : F) (left right : Option (node F)) (fn : String)
      (args : List (node F)),
      c.functions.lookup fn = none →
      (∀ a ∈ args, ∃ v, calculateNode c a = .ret v none) →
      calculate c (some (.mk .funcNode val left right fn args))
        = .ret 0 (some ⟨"unknown function " ++ fn⟩)) ∧
    (∀ (S : Type) (c : CalculatorSt F S) (fn : String) (vs : List F) (s : S),
      (c.functions s).lookup fn = none →
      callSt c fn vs s = (.ret 0 (some ⟨"unknown function " ++ fn⟩), s)) ∧
    (∀ (S : Type) (c : CalculatorSt F S) (val : F) (left right : Option (node F))
      (fn : String) (args : List (node F)) (vs : List F) (s s1 : S),
      argsEvaluate c args s vs s1 → (c.functions s1).lookup fn = none →
      calculateSt c (some (.mk .funcNode val left right fn args)) s
        = (.ret 0 (some ⟨"unknown function " ++ fn⟩), s1)) := by
  refine ⟨?_, ?_, ?_⟩
  · intro c val left right fn args hf ha
    obtain ⟨vs, hvs⟩ := values_of_all_ok c args ha
    rw [calculate_func_values c val left right fn args vs hvs]
    simp [call, hf]
  · intro S c fn vs s hf
    exact callSt_unknown c fn vs s hf
  · intro S c val left right fn args vs s s1 hargs hf
    simp only [calculateSt, calculateNodeSt]
    rw [calculateArgsSt_of_argsEvaluate c fn args s s1 vs hargs []]
    exact callSt_unknown c fn _ s1 hf

/-- Witness of C5, amended: `foo(1)` evaluates to 0 with the error
`unknown function foo` and no call is recorded; `foo(sqrt(4))` does the same
and the only call recorded is the one of `sqrt` on 4, made by the argument. -/
theorem calculate_unknown_function_witness :
    calculate symCalc (some treeFoo) = .ret 0 (some ⟨"unknown function foo"⟩) ∧
    calculateSt symCalc.logged (some treeFoo) []
      = (.ret 0 (some ⟨"unknown function foo"⟩), []) ∧
    calculateSt symCalc.logged (some treeFooSqrt) []
      = (.ret 0 (some ⟨"unknown function foo"⟩), [("sqrt", [.lit 4])]) :=
  ⟨(@calculate_unknown_function sym _ _ _ _ _).1 symCalc 0 none none "foo"
      [numLeaf (sym.lit 1)] rfl (by
        intro a ha
        simp only [List.mem_singleton] at ha
        subst ha
        exact ⟨.lit 1, by decide⟩),
   (@calculate_unknown_function sym _ _ _ _ _).2.2 _ symCalc.logged 0 none none "foo"
      [numLeaf (sym.lit 1)] [sym.lit 1] [] []
      (.cons _ _ [] [] [] (sym.lit 1) [] (by decide) (.nil [])) rfl,
   (@calculate_unknown_function sym _ _ _ _ _).2.2 _ symCalc.logged 0 none none "foo"
      [funcCall "sqrt" [numLeaf (sym.lit 4)]] [sym.app1 "Sqrt" (sym.lit 4)] []
      [("sqrt", [sym.lit 4])]
      (.cons _ _ [] [("sqrt", [sym.lit 4])] [("sqrt", [sym.lit 4])]
        (sym.app1 "Sqrt" (sym.lit 4)) [] (by decide) (.nil _)) rfl⟩

/-- C6: in a binary node, an error of the left child is returned whatever the
right child is; an error of the right child is returned when the left child
succeeds; so when both fail the error is the one of the left child. -/
theorem calculate_binary_error (c : Calculator F) (kind : nodeKind) (val : F)
    (left right : Option (node F)) (fn : String) (args : List (node F))
    (hk : kind.isBinary = true) :
    (∀ v e, calculate c left = .ret v (some e) →
      ∀ other : Option (node F),
        calculate c (some (.mk kind val left other fn args)) = .ret 0 (some e)) ∧
    (∀ l v e, calculate c left = .ret l none →
      calculate c right = .ret v (some e) →
      calculate c (some (.mk kind val left right fn args)) = .ret 0 (some e)) ∧
    (∀ v1 e1 v2 e2, calculate c left = .ret v1 (some e1) →
      calculate c right = .ret v2 (some e2) →
      calculate c (some (.mk kind val left right fn args)) = .ret 0 (some e1)) := by
  cases kind with
  | addNode =>
    refine ⟨?_, ?_, ?_⟩
    · intro v e hl other; simp [calculate_some, calculateNode, hl]
    · intro l v e hl hr; simp [calculate_some, calculateNode, hl, hr]
    · intro v1 e1 v2 e2 hl _; simp [calculate_some, calculateNode, hl]
  | subNode =>
    refine ⟨?_, ?_, ?_⟩
    · intro v e hl other; simp [calculate_some, calculateNode, hl]
    · intro l v e hl hr; simp [calculate_some, calculateNode, hl, hr]
    · intro v1 e1 v2 e2 hl _; simp [calculate_some, calculateNode, hl]
  | mulNode =>
    refine ⟨?_, ?_, ?_⟩
    · intro v e hl other; simp [calculate_some, calculateNode, hl]
    · intro l v e hl hr; simp [calculate_some, calculateNode, hl, hr]
    · intro v1 e1 v2 e2 hl _; simp [calculate_some, calculateNode, hl]
  | divNode =>
    refine ⟨?_, ?_, ?_⟩
    · intro v e hl other; simp [calculate_some, calculateNode, hl]
    · intro l v e hl hr; simp [calculate_some, calculateNode, hl, hr]
    · intro v1 e1 v2 e2 hl _; simp [calculate_some, calculateNode, hl]
  | numNode => simp [nodeKind.isBinary] at hk
  | funcNode => simp [nodeKind.isBinary] at hk
  | other s => simp [nodeKind.isBinary] at hk

/-- Witness of C6: `foo() + bar()` reports the error of `foo()`, and `1 - bar()`
reports the error of `bar()`. -/
theorem calculate_binary_error_witness :
    calculate symCalc (some treeBothFail)
      = .ret 0 (some ⟨"unknown function foo"⟩) ∧
    calculate symCalc (some treeRightFail)
      = .ret 0 (some ⟨"unknown function bar"⟩) :=
  ⟨(calculate_binary_error symCalc .addNode 0 (some (funcCall "foo" []))
      (some (funcCall "bar" [])) "" [] rfl).2.2 0 ⟨"unknown function foo"⟩
      0 ⟨"unknown function bar"⟩ (by decide) (by decide),
   (calculate_binary_error symCalc .subNode 0 (some (numLeaf (.lit 1)))
      (some (funcCall "bar" [])) "" [] rfl).2.1 (.lit 1) 0
      ⟨"unknown function bar"⟩ (by decide) (by decide)⟩

/-- C7: in a function node, when the arguments before some argument evaluate
without error and that argument fails, `calculate` ends with the failure of that
argument (its error, with the value 0; or its panic), whatever the later
arguments are and whatever the name of the function is, registered or not. -/
theorem calculate_func_first_failure (c : Calculator F) (val : F)
    (left right : Option (node F)) (pre : List (node F)) (a : node F)
    (hpre : ∀ p ∈ pre, ∃ w, calculateNode c p = .ret w none) :
    (∀ v e, calculateNode c a = .ret v (some e) →
      ∀ (fn : String) (post : List (node F)),
        calculate c (some (.mk .funcNode val left right fn (pre ++ a :: post)))
          = .ret 0 (some e)) ∧
    (∀ p, calculateNode c a = .panic p →
      ∀ (fn : String) (post : List (node F)),
        calculate c (some (.mk .funcNode val left right fn (pre ++ a :: post)))
          = .panic p) := by
  refine ⟨?_, ?_⟩
  · intro v e ha fn post
    rw [calculate_some]
    simp only [calculateNode]
    exact calculateArgs_first_err c fn pre a post v e hpre ha []
  · intro p ha fn post
    rw [calculate_some]
    simp only [calculateNode]
    exact calculateArgs_first_panic c fn pre a post p hpre ha []

/-- Witness of C7: in `nosuch(1, foo(), bar())` the error is the one of `foo()`,
the first failing argument, though `nosuch` is not registered either. -/
theorem calculate_func_first_failure_witness :
    calculate symCalc (some treeArgFails)
      = .ret 0 (some ⟨"unknown function foo"⟩) :=
  (calculate_func_first_failure symCalc 0 none none [numLeaf (.lit 1)]
    (funcCall "foo" []) (by
      intro p hp
      simp only [List.mem_singleton] at hp
      subst hp
      exact ⟨.lit 1, by decide⟩)).1 0 ⟨"unknown function foo"⟩ (by decide)
    "nosuch" [funcCall "bar" []]

/-- C8: a div node whose children evaluate without error to l and r evaluates to
the quotient `l / r` with a nil error, for every r: the divisor is not tested. -/
theorem calculate_div_any_divisor (c : Calculator F) (val : F)
    (left right : Option (node F)) (fn : String) (args : List (node F)) (l r : F)
    (hl : calculate c left = .ret l none) (hr : calculate c right = .ret r none) :
    calculate c (some (.mk .divNode val left right fn args)) = .ret (l / r) none := by
  simp [calculate_some, calculateNode, hl, hr]

/-- Witness of C8: `1/0` and `0/0` evaluate to the quotients `1/0` and `0/0`, with
a nil error. -/
theorem calculate_div_any_divisor_witness :
    calculate symCalc (some treeDivZero) = .ret (.lit 1 / 0) none ∧
    calculate symCalc (some treeZeroDivZero) = .ret (0 / 0) none :=
  ⟨calculate_div_any_divisor symCalc 0 (some (numLeaf (.lit 1)))
      (some (numLeaf (.lit 0))) "" [] (.lit 1) 0 (by decide) (by decide),
   calculate_div_any_divisor symCalc 0 (some (numLeaf (.lit 0)))
      (some (numLeaf (.lit 0))) "" [] 0 0 (by decide) (by decide)⟩

/-- C9: `Calculate` is the fail-fast composition of its three stages. An error of
`tokenize` is returned with the value 0, whatever the parser is; otherwise an
error of `parse` is returned with the value 0, whatever the calculator would
compute; otherwise the result is the one of `calculate` on the parsed tree. -/
theorem Calculate_fail_fast {T P : Type} (tokenize : String → Outcome T)
    (newParser : T → List (String × any F) → P)
    (parse : P → Outcome (Option (node F))) (c : Calculator F) (expr : String) :
    (∀ ts e, tokenize expr = .ret ts (some e) →
      ∀ (Q : Type) (newParser2 : T → List (String × any F) → Q)
        (parse2 : Q → Outcome (Option (node F))),
        Calculate tokenize newParser2 parse2 c expr = .ret 0 (some e)) ∧
    (∀ ts n e, tokenize expr = .ret ts none →
      parse (newParser ts c.functions) = .ret n (some e) →
      Calculate tokenize newParser parse c expr = .ret 0 (some e)) ∧
    (∀ ts n, tokenize expr = .ret ts none →
      parse (newParser ts c.functions) = .ret n none →
      Calculate tokenize newParser parse c expr = calculate c n) := by
  refine ⟨?_, ?_, ?_⟩
  · intro ts e ht Q newParser2 parse2
    simp [Calculate, ht]
  · intro ts n e ht hp
    simp [Calculate, ht, hp]
  · intro ts n ht hp
    simp [Calculate, ht, hp]

/-- Witness of C9: with the character front end, the empty string stops at the
tokenizer, `8` stops at the parser, and `7` reaches the evaluator. -/
theorem Calculate_fail_fast_witness :
    Calculate charTokenize charNewParser charParse symCalc ""
      = .ret 0 (some ⟨"empty expression"⟩) ∧
    Calculate charTokenize charNewParser charParse symCalc "8"
      = .ret 0 (some ⟨"unexpected token"⟩) ∧
    Calculate charTokenize charNewParser charParse symCalc "7"
      = calculate symCalc (some (numLeaf (.lit 7))) :=
  ⟨(Calculate_fail_fast charTokenize charNewParser charParse symCalc "").1
      [] ⟨"empty expression"⟩ (by decide) (List Char) charNewParser charParse,
   (Calculate_fail_fast charTokenize charNewParser charParse symCalc "8").2.1
      ['8'] none ⟨"unexpected token"⟩ (by decide) rfl,
   (Calculate_fail_fast charTokenize charNewParser charParse symCalc "7").2.2
      ['7'] (some (numLeaf (.lit 7))) (by decide) rfl⟩

/-- C10: whenever `call`, `calculate` or `Calculate` returns a non-nil error, the
number returned with it is 0, for every table, tree and front end. -/
theorem error_value_is_zero :
    (∀ (c : Calculator F) (fn : String) (args : List F) (v : F) (e : error),
      call c fn args = .ret v (some e) → v = 0) ∧
    (∀ (c : Calculator F) (n : Option (node F)) (v : F) (e : error),
      calculate c n = .ret v (some e) → v = 0) ∧
    (∀ (T P : Type) (tokenize : String → Outcome T)
      (newParser : T → List (String × any F) → P)
      (parse : P → Outcome (Option (node F))) (c : Calculator F) (expr : String)
      (v : F) (e : error),
      Calculate tokenize newParser parse c expr = .ret v (some e) → v = 0) := by
  refine ⟨call_err_zero, calculate_err_zero, ?_⟩
  intro T P tokenize newParser parse c expr v e h
  unfold Calculate at h
  split at h
  · simp at h
  · simp at h; exact h.1.symm
  · split at h
    · simp at h
    · simp at h; exact h.1.symm
    · exact calculate_err_zero c _ v e h

/-- Witness of C10: `foo(1)` returns an error, and the value beside it is 0. -/
theorem error_value_is_zero_witness :
    ∃ v e, calculate symCalc (some treeFoo) = .ret v (some e) ∧ v = 0 :=
  ⟨0, ⟨"unknown function foo"⟩, by decide,
    error_value_is_zero.2.1 symCalc (some treeFoo) 0 ⟨"unknown function foo"⟩
      (by decide)⟩


end claims

section tableClaims

variable {F : Type}

/-- C11: the table of `mathFunctions` has 49 entries under 49 different names;
the names bound to a function of two parameters are exactly atan2, copysign,
dim, hypot, max, min, mod, nextafter, pow and remainder; the only name bound to
a function of three parameters is fma; the only name bound to a function of no
parameter is nan; every other name of the table is bound to a function of one
parameter. -/
theorem mathFunctions_name_arity (math : mathPkg F) :
    (mathFunctions math).length = 49 ∧
    ((mathFunctions math).map Prod.fst).Nodup ∧
    (∀ name : String,
      ((∃ f, (mathFunctions math).lookup name = some f ∧ f.arity = some 2) ↔
        name ∈ ["atan2", "copysign", "dim", "hypot", "max", "min", "mod",
          "nextafter", "pow", "remainder"]) ∧
      ((∃ f, (mathFunctions math).lookup name = some f ∧ f.arity = some 3) ↔
        name = "fma") ∧
      ((∃ f, (mathFunctions math).lookup name = some f ∧ f.arity = some 0) ↔
        name = "nan") ∧
      (∀ f, (mathFunctions math).lookup name = some f →
        name ∉ ["atan2", "copysign", "dim", "hypot", "max", "min", "mod",
          "nextafter", "pow", "remainder", "fma", "nan"] →
        f.arity = some 1)) := by
  have hfst : (mathFunctions math).map Prod.fst
      = (surface (mathFunctions math)).map Prod.fst := by
    simp [surface, Function.comp_def]
  have key : ∀ (name : String) (k : Nat),
      (∃ f, (mathFunctions math).lookup name = some f ∧ f.arity = some k) ↔
        (name, some k) ∈ surface (mathFunctions symMath) ∧
          (surface (mathFunctions symMath)).lookup name = some (some k) := by
    intro name k
    rw [surface_mathFunctions symMath, ← surface_mathFunctions math]
    constructor
    · rintro ⟨f, hf, hk⟩
      have hl : (surface (mathFunctions math)).lookup name = some (some k) := by
        rw [lookup_surface, hf, ← hk]; rfl
      exact ⟨mem_of_lookup _ _ _ hl, hl⟩
    · rintro ⟨_, hl⟩
      rw [lookup_surface] at hl
      cases hf : (mathFunctions math).lookup name with
      | none => rw [hf] at hl; simp at hl
      | some f =>
        rw [hf] at hl
        exact ⟨f, rfl, by simpa using hl⟩
  refine ⟨rfl, ?_, ?_⟩
  · rw [hfst, surface_mathFunctions]
    decide
  · intro name
    refine ⟨?_, ?_, ?_, ?_⟩
    · rw [key]
      constructor
      · rintro ⟨hm, _⟩
        have hall : ∀ p ∈ surface (mathFunctions symMath), p.2 = some 2 →
            p.1 ∈ ["atan2", "copysign", "dim", "hypot", "max", "min", "mod",
              "nextafter", "pow", "remainder"] := by decide
        exact hall _ hm rfl
      · intro hn
        have hall : ∀ n ∈ ["atan2", "copysign", "dim", "hypot", "max", "min",
            "mod", "nextafter", "pow", "remainder"],
            (n, some 2) ∈ surface (mathFunctions symMath) ∧
              (surface (mathFunctions symMath)).lookup n = some (some 2) := by
          decide
        exact hall _ hn
    · rw [key]
      constructor
      · rintro ⟨hm, _⟩
        have hall : ∀ p ∈ surface (mathFunctions symMath), p.2 = some 3 →
            p.1 = "fma" := by decide
        exact hall _ hm rfl
      · rintro rfl
        decide
    · rw [key]
      constructor
      · rintro ⟨hm, _⟩
        have hall : ∀ p ∈ surface (mathFunctions symMath), p.2 = some 0 →
            p.1 = "nan" := by decide
        exact hall _ hm rfl
      · rintro rfl
        decide
    · intro f hf hn
      have hl : (surface (mathFunctions math)).lookup name = some f.arity := by
        rw [lookup_surface, hf]; rfl
      have hm := mem_of_lookup _ _ _ hl
      rw [surface_mathFunctions math, ← surface_mathFunctions symMath] at hm
      have hall : ∀ p ∈ surface (mathFunctions symMath),
          p.1 ∉ ["atan2", "copysign", "dim", "hypot", "max", "min", "mod",
            "nextafter", "pow", "remainder", "fma", "nan"] → p.2 = some 1 := by
        decide
      exact hall _ hm hn

/-- Witness of C11: in the table of `New`, `pow` is bound to a function of two
parameters and `sqrt`, which is none of the twelve listed names, to a function
of one. -/
theorem mathFunctions_name_arity_witness :
    (∃ f, (mathFunctions symMath).lookup "pow" = some f ∧ f.arity = some 2) ∧
      (any.func1 symMath.Sqrt).arity = some 1 :=
  ⟨((mathFunctions_name_arity symMath).2.2 "pow").1.mpr (by decide),
   ((mathFunctions_name_arity symMath).2.2 "sqrt").2.2.2 (.func1 symMath.Sqrt) rfl
     (by decide)⟩

end tableClaims

section callClaims

variable {F : Type} [Zero F]

/-- C12: every entry of the table of `mathFunctions` is a function of 0, 1, 2 or
3 parameters, so with a calculator made by `New` no name is bound to a value of
another type and `call` never returns the error `invalid function`, for any
name and any list of arguments. -/
theorem call_New_never_invalid (math : mathPkg F) :
    (∀ entry ∈ mathFunctions math, ∃ k, k ≤ 3 ∧ entry.2.arity = some k) ∧
    (∀ name : String, (New math).functions.lookup name ≠ some .other) ∧
    (∀ (name : String) (args : List F) (v : F),
      call (New math) name args ≠ .ret v (some ⟨"invalid function " ++ name⟩)) := by
  have hno : ∀ name : String, (New math).functions.lookup name ≠ some .other := by
    intro name h
    obtain ⟨k, _, hk⟩ := mathFunctions_arity_le math name .other (mem_of_lookup _ _ _ h)
    simp [any.arity] at hk
  refine ⟨fun entry he => mathFunctions_arity_le math entry.1 entry.2 he, hno, ?_⟩
  intro name args v h
  unfold call at h
  split at h
  · simp only [Outcome.ret.injEq, Option.some.injEq, error.mk.injEq] at h
    exact unknown_ne_invalid name h.2
  · simp at h
  · split at h <;> simp at h
  · split at h
    · simp at h
    · split at h <;> simp at h
  · split at h
    · simp at h
    · split at h
      · simp at h
      · split at h <;> simp at h
  · rename_i hl
    exact hno name hl

/-- Witness of C12: `sqrt` called with no argument does not return
`invalid function sqrt`. -/
theorem call_New_never_invalid_witness :
    call symCalc "sqrt" [] ≠ .ret 0 (some ⟨"invalid function sqrt"⟩) :=
  (call_New_never_invalid symMath).2.2 "sqrt" [] 0

/-- C15: dispatch does not read surplus arguments. A name bound to a function
of no parameter returns `f()` for every list of arguments; a name bound to a
function of one, two or three parameters returns the function applied to the
first one, two or three arguments, with a nil error, whatever follows them. -/
theorem call_ignores_surplus (c : Calculator F) (fn : String) :
    (∀ f, c.functions.lookup fn = some (.func0 f) →
      ∀ args : List F, call c fn args = .ret (f ()) none) ∧
    (∀ f, c.functions.lookup fn = some (.func1 f) →
      ∀ (a0 : F) (surplus : List F), call c fn (a0 :: surplus) = .ret (f a0) none) ∧
    (∀ f, c.functions.lookup fn = some (.func2 f) →
      ∀ (a0 a1 : F) (surplus : List F),
        call c fn (a0 :: a1 :: surplus) = .ret (f a0 a1) none) ∧
    (∀ f, c.functions.lookup fn = some (.func3 f) →
      ∀ (a0 a1 a2 : F) (surplus : List F),
        call c fn (a0 :: a1 :: a2 :: surplus) = .ret (f a0 a1 a2) none) := by
  refine ⟨?_, ?_, ?_, ?_⟩
  · intro f hf args
    simp [call, hf]
  · intro f hf a0 surplus
    simp [call, hf]
  · intro f hf a0 a1 surplus
    simp [call, hf]
  · intro f hf a0 a1 a2 surplus
    simp [call, hf]

/-- Witness of C15: `sqrt` called with 1 and 2 returns `Sqrt(1)`, and `nan` called
with 5 and 6 returns `NaN()`. -/
theorem call_ignores_surplus_witness :
    call symCalc "sqrt" [.lit 1, .lit 2] = .ret (.app1 "Sqrt" (.lit 1)) none ∧
    call symCalc "nan" [.lit 5, .lit 6] = .ret (.app0 "NaN") none :=
  ⟨(call_ignores_surplus symCalc "sqrt").2.1 symMath.Sqrt rfl (.lit 1) [.lit 2],
   (call_ignores_surplus symCalc "nan").1 symMath.NaN rfl [.lit 5, .lit 6]⟩

/-- C16: for a name bound to a function of k parameters, `call` panics on no
index exactly when it is given at least k arguments, and then it returns a
value with a nil error; given n arguments, n less than k, it returns no error
but panics reading index n of a slice of length n. -/
theorem call_in_bounds_iff (c : Calculator F) (fn : String) (f : any F) (k : Nat)
    (args : List F) (hf : c.functions.lookup fn = some f) (hk : f.arity = some k) :
    ((∀ p, call c fn args ≠ .panic p) ↔ k ≤ args.length) ∧
    (k ≤ args.length → ∃ v, call c fn args = .ret v none) ∧
    (args.length < k →
      call c fn args = .panic (.indexOutOfRange args.length args.length)) := by
  have hge : k ≤ args.length → ∃ v, call c fn args = .ret v none := by
    intro hle
    rcases Nat.lt_or_eq_of_le hle with hlt | heq
    · obtain ⟨v, hv, _⟩ := call_surplus c fn f k args hf hk hlt
      exact ⟨v, hv⟩
    · exact call_arity_ok c fn f args hf (by rw [← heq]; exact hk)
  refine ⟨⟨?_, ?_⟩, hge, fun hlt => call_short c fn f k args hf hk hlt⟩
  · intro hnp
    by_contra hlt
    exact hnp _ (call_short c fn f k args hf hk (Nat.lt_of_not_le hlt))
  · intro hle p hp
    obtain ⟨v, hv⟩ := hge hle
    rw [hv] at hp
    simp at hp

/-- Witness of C16: `sqrt` called with no argument panics on index 0 of an empty
slice, and called with one argument it does not panic. -/
theorem call_in_bounds_iff_witness :
    call symCalc "sqrt" [] = .panic (.indexOutOfRange 0 0) ∧
    ∀ p, call symCalc "sqrt" [.lit 4] ≠ .panic p :=
  ⟨(call_in_bounds_iff symCalc "sqrt" (.func1 symMath.Sqrt) 1 [] rfl rfl).2.2
      (by decide),
   (call_in_bounds_iff symCalc "sqrt" (.func1 symMath.Sqrt) 1 [.lit 4] rfl rfl).1.mpr
      (by decide)⟩

end callClaims

section stateClaims

variable {F : Type} [Zero F] [Add F] [Sub F] [Mul F] [Div F]

/-- Counterexample to C13: a calculator whose table binds `tick` to a function
that counts its calls. The front end leaves the state as it is, and `call`,
`calculate` and `Calculate` only read the table, yet evaluating `tick()` twice
in succession gives 0 and then 1. -/
theorem stateful_entry_not_idempotent :
    CalculateSt quietTokenize quietNewParser quietParse tickCalc "tick()" 0
      = (.ret (.lit 0) none, 1) ∧
    CalculateSt quietTokenize quietNewParser quietParse tickCalc "tick()" 1
      = (.ret (.lit 1) none, 2) ∧
    (CalculateSt quietTokenize quietNewParser quietParse tickCalc "tick()"
        (CalculateSt quietTokenize quietNewParser quietParse tickCalc "tick()" 0).2).1
      ≠ (CalculateSt quietTokenize quietNewParser quietParse tickCalc "tick()" 0).1 := by
  refine ⟨by decide, by decide, by decide⟩

/-- C13, amended: when the entries of the table leave the program state as it is
when they are called, and the tokenizer and the parser leave it as it is too,
then `call`, `calculate` and `Calculate` leave the state as they found it, and
evaluating a string a second time, in the state the first evaluation left,
gives the same outcome (the same value and the same error). The entries of the
table built by `New` are such entries, and on that table the evaluator over a
program state is the pure evaluator. -/
theorem Calculate_twice_same {S T P : Type} (tokenize : String → S → Outcome T × S)
    (newParser : T → (S → List (String × anySt F S)) → S → P × S)
    (parse : P → S → Outcome (Option (node F)) × S)
    (c : CalculatorSt F S) (expr : String) (s : S)
    (hentries : ∀ name f, (c.functions s).lookup name = some f → f.readOnly)
    (htok : (tokenize expr s).2 = s)
    (hnew : ∀ tokens, (newParser tokens c.functions s).2 = s)
    (hparse : ∀ p, (parse p s).2 = s) :
    (∀ (fn : String) (args : List F), (callSt c fn args s).2 = s) ∧
    (∀ n : Option (node F), (calculateSt c n s).2 = s) ∧
    (CalculateSt tokenize newParser parse c expr s).2 = s ∧
    (CalculateSt tokenize newParser parse c expr
        (CalculateSt tokenize newParser parse c expr s).2).1
      = (CalculateSt tokenize newParser parse c expr s).1 ∧
    (∀ (math : mathPkg F) (name : String) (f : anySt F S),
      (((New math).lift : CalculatorSt F S).functions s).lookup name = some f →
      f.readOnly) ∧
    (∀ (math : mathPkg F) (n : Option (node F)),
      calculateSt ((New math).lift : CalculatorSt F S) n s
        = (calculate (New math) n, s)) := by
  have hC := CalculateSt_readOnly tokenize newParser parse c expr s hentries htok
    hnew hparse
  refine ⟨?_, ?_, hC, ?_, ?_, ?_⟩
  · intro fn args
    exact callSt_readOnly c s hentries fn args
  · intro n
    exact calculateSt_readOnly c s hentries n
  · rw [hC]
  · intro math name f h
    exact lift_readOnly (New math) s name f h
  · intro math n
    exact calculateSt_lift (New math) n s

/-- Witness of C13, amended: with the calculator of `New` and a front end that
leaves the state as it is, evaluating `7` leaves the state 0 as it is and a
second evaluation gives the same outcome. -/
theorem Calculate_twice_same_witness :
    (CalculateSt quietTokenize quietNewParser quietParse
        (symCalc.lift : CalculatorSt sym Int) "7" 0).2 = 0 ∧
    (CalculateSt quietTokenize quietNewParser quietParse
        (symCalc.lift : CalculatorSt sym Int) "7"
        (CalculateSt quietTokenize quietNewParser quietParse
          (symCalc.lift : CalculatorSt sym Int) "7" 0).2).1
      = (CalculateSt quietTokenize quietNewParser quietParse
          (symCalc.lift : CalculatorSt sym Int) "7" 0).1 :=
  ⟨(Calculate_twice_same quietTokenize quietNewParser quietParse
      (symCalc.lift : CalculatorSt sym Int) "7" 0 (lift_readOnly symCalc 0) rfl
      (fun _ => rfl) (fun p => quietParse_snd p 0)).2.2.1,
   (Calculate_twice_same quietTokenize quietNewParser quietParse
      (symCalc.lift : CalculatorSt sym Int) "7" 0 (lift_readOnly symCalc 0) rfl
      (fun _ => rfl) (fun p => quietParse_snd p 0)).2.2.2.1⟩

/-- C14: a node whose kind is none of the six evaluates to the error
`unknown node type` with the value 0, whatever its children and arguments are;
and when evaluation of a tree reaches such a node before any failure, this
error is the result of the whole tree. -/
theorem calculate_unknown_kind (c : Calculator F) (name : String) (val : F)
    (left right : Option (node F)) (fn : String) (args : List (node F)) :
    calculate c (some (.mk (.other name) val left right fn args))
      = .ret 0 (some ⟨"unknown node type: " ++ name⟩) ∧
    (∀ t : node F,
      evaluatedFirst c (.mk (.other name) val left right fn args) t →
      calculate c (some t) = .ret 0 (some ⟨"unknown node type: " ++ name⟩)) := by
  have hbad : calculateNode c (.mk (.other name) val left right fn args)
      = .ret 0 (some ⟨"unknown node type: " ++ name⟩) := by
    simp [calculateNode]
  refine ⟨by rw [calculate_some]; exact hbad, ?_⟩
  intro t ht
  rw [calculate_some]
  exact evaluatedFirst_error c _ t 0 _ hbad ht

/-- Witness of C14: the node of kind `neg` fails though its children would fail
too, and inside `sqrt(1 + max(2, bad))` its error reaches the root. -/
theorem calculate_unknown_kind_witness :
    calculate symCalc (some treeBadKind)
      = .ret 0 (some ⟨"unknown node type: neg"⟩) ∧
    calculate symCalc (some treeAroundBadKind)
      = .ret 0 (some ⟨"unknown node type: neg"⟩) := by
  have hmax : evaluatedFirst symCalc treeBadKind
      (funcCall "max" [numLeaf (sym.lit 2), treeBadKind]) :=
    evaluatedFirst.arg 0 none none "max" [numLeaf (sym.lit 2)] treeBadKind []
      (by
        intro p hp
        simp only [List.mem_singleton] at hp
        subst hp
        exact ⟨.lit 2, by decide⟩)
      evaluatedFirst.here
  have hadd : evaluatedFirst symCalc treeBadKind
      (binNode .addNode (numLeaf (sym.lit 1))
        (funcCall "max" [numLeaf (sym.lit 2), treeBadKind])) :=
    evaluatedFirst.right .addNode 0 (some (numLeaf (sym.lit 1)))
      (funcCall "max" [numLeaf (sym.lit 2), treeBadKind]) "" [] (sym.lit 1) rfl
      (by decide) hmax
  have hroot : evaluatedFirst symCalc treeBadKind treeAroundBadKind :=
    evaluatedFirst.arg 0 none none "sqrt" []
      (binNode .addNode (numLeaf (sym.lit 1))
        (funcCall "max" [numLeaf (sym.lit 2), treeBadKind])) []
      (by simp) hadd
  exact ⟨(calculate_unknown_kind symCalc "neg" (.lit 5) (some (funcCall "foo" []))
      none "bar" [funcCall "baz" []]).1,
    (calculate_unknown_kind symCalc "neg" (.lit 5) (some (funcCall "foo" []))
      none "bar" [funcCall "baz" []]).2 treeAroundBadKind hroot⟩

end stateClaims

end Gocalc
